import Mathlib

/-!
Shallow embedding of the bindgen type-lowering core (`bindgen/src/bindgen.rs`)
and proofs about it.

The lowering driver, tag-union lowering, builtin lowering, struct lowering and
the recursion-resolution pass are translated directly from `bindgen.rs`.
The foreign-type registry (`Types`, `RocType`, `RocTagUnion`, `TypeId`) and the
two name allocators live in sibling modules that are not part of the sources
here, so they are modelled from the specification (sections 3 and 4.1/4.2).
Upstream services (`Subs` contents, the layout cache, `cmp_fields`,
`is_dropped_because_empty`, interning) are the external oracle of section 6.1
and are modelled as function-valued parameters.

Rust panics (`todo!`, `unreachable!`, `unwrap`/`expect`, `debug_assert`) are
modelled as distinct error values of an `Except`; general recursion over the
type graph is made total with an explicit fuel parameter (running out of fuel
is its own error, distinct from every panic).
-/

namespace Bindgen

/-- A type variable of the upstream type checker: an opaque id. -/
abbrev Variable := Nat

/-- Modelled from the spec: `TypeId` is an opaque dense index (newtype over a
non-negative integer) with a reserved sentinel `PENDING` (section 3.3). -/
inductive TypeId where
  | norm (n : Nat)
  | PENDING
deriving DecidableEq, Repr

/-- An interned symbol: its user-visible string plus whether it names a
builtin.  `as_str` through the intern table is folded into the field. -/
structure Symbol where
  str : String
  builtin : Bool
deriving DecidableEq, Repr

/-- `Symbol::as_str(interns)`. -/
def Symbol.as_str (s : Symbol) : String := s.str

/-- `Symbol::is_builtin()`. -/
def Symbol.is_builtin (s : Symbol) : Bool := s.builtin

/-- `TagName`: ordinary uppercase tags, or closure tags (never expected in
this subsystem). -/
inductive TagName where
  | Tag (s : String)
  | Closure (s : String)
deriving DecidableEq, Repr

/-- `RecordField` of `roc_types`: the three field kinds, each holding the
field's variable. -/
inductive RecordField where
  | Required (v : Variable)
  | Demanded (v : Variable)
  | Optional (v : Variable)
deriving DecidableEq, Repr

/-- `FlatType` of `roc_types::subs`, restricted to what `add_type_help`
inspects.  Record fields and union tags are carried as already-collected
lists: `unsorted_iterator` and `UnionTags::iter_from_subs` are oracle
operations of section 6.1 and their output is what the embedding stores. -/
inductive FlatType where
  | Record (fields : List (String × RecordField)) (ext : Variable)
  | TagUnion (tags : List (TagName × List Variable)) (ext : Variable)
  | RecursiveTagUnion (recVar : Variable) (tags : List (TagName × List Variable)) (ext : Variable)
  | Apply (sym : Symbol) (args : List Variable)
  | Func
  | FunctionOrTagUnion
  | Erroneous
  | EmptyRecord
  | EmptyTagUnion
deriving DecidableEq, Repr

/-- `Content` of `roc_types::subs`, restricted to what `add_type_help`
inspects.  Alias type arguments and the alias kind are dropped (the source
ignores them); the ability payloads of flex/rigid able vars are dropped for
the same reason. -/
inductive Content where
  | FlexVar
  | RigidVar
  | FlexAbleVar
  | RigidAbleVar
  | Structure (f : FlatType)
  | Alias (sym : Symbol) (realVar : Variable)
  | RangedNumber
  | Error
  | RecursionVar (structVar : Variable)
deriving DecidableEq, Repr

/-- Integer widths of `roc_builtins::bitcode::IntWidth`. -/
inductive IntWidth where
  | U8 | U16 | U32 | U64 | U128 | I8 | I16 | I32 | I64 | I128
deriving DecidableEq, Repr

/-- Float widths of `roc_builtins::bitcode::FloatWidth`. -/
inductive FloatWidth where
  | F32 | F64 | F128
deriving DecidableEq, Repr

/-- `UnionLayout` of `roc_mono::layout`.  Only the `nullable_id` of
`NullableUnwrapped` is consulted by the lowering code, so the other
per-variant payloads (field layouts) are not carried. -/
inductive UnionLayout where
  | NonRecursive
  | Recursive
  | NonNullableUnwrapped
  | NullableWrapped
  | NullableUnwrapped (nullableId : Bool)

mutual
/-- `Builtin` of `roc_mono::layout`: primitive layouts plus the composite
container layouts holding their element layouts. -/
inductive Builtin where
  | Int (w : IntWidth)
  | Float (w : FloatWidth)
  | Bool
  | Decimal
  | Str
  | Dict (key val : Layout)
  | Set (elem : Layout)
  | List (elem : Layout)

/-- `Layout` of `roc_mono::layout`, restricted to the variants the lowering
code matches on.  Payloads the code never reads are not carried. -/
inductive Layout where
  | Builtin (b : Builtin)
  | Struct
  | Union (u : UnionLayout)
  | Boxed
  | LambdaSet
  | RecursivePointer
end

/-- `RocTagUnion` (section 3.2), the tag-union representations. -/
inductive RocTagUnion where
  | Enumeration (name : String) (tags : List String)
  | NonRecursive (name : String) (tags : List (String × Option TypeId))
  | Recursive (name : String) (tags : List (String × Option TypeId))
  | NullableUnwrapped (name : String) (nullTag : String) (nonNullTag : String)
      (nonNullPayload : TypeId) (nullRepresentsFirstTag : Bool)
deriving DecidableEq, Repr

/-- Modelled from the spec: the foreign type `RocType` (section 3.1), a
tagged sum.  The definition itself lives in the `types` module, which is not
among the sources; the variant table of section 3.1 fixes it completely. -/
inductive RocType where
  | U8 | U16 | U32 | U64 | U128 | I8 | I16 | I32 | I64 | I128
  | F32 | F64 | F128
  | Bool
  | RocDec
  | RocStr
  | RocList (elem : TypeId)
  | RocSet (elem : TypeId)
  | RocDict (key val : TypeId)
  | Struct (name : String) (fields : List (String × TypeId))
  | TransparentWrapper (name : String) (content : TypeId)
  | TagUnion (u : RocTagUnion)
  | RecursivePointer (name : String) (content : TypeId)
deriving DecidableEq, Repr

/-- Modelled from the spec: the type registry (sections 3.3 and 4.1): an
append-only store of foreign types indexed by dense `TypeId`s plus a set of
`depends` edges. -/
structure Types where
  entries : List RocType
  deps : List (TypeId × TypeId)
deriving DecidableEq, Repr

/-- Modelled from the spec: `add(t) → TypeId` appends and returns the new
index (section 4.1). -/
def Types.add (ts : Types) (t : RocType) : Types × TypeId :=
  ({ ts with entries := ts.entries ++ [t] }, .norm ts.entries.length)

/-- Modelled from the spec: `get(id)` is index lookup; out-of-range lookup
fails fast in the source, here it is `none` (section 4.1).  The sentinel
`PENDING` denotes no registered slot. -/
def Types.get (ts : Types) (id : TypeId) : Option RocType :=
  match id with
  | .norm n => ts.entries.get? n
  | .PENDING => none

/-- Modelled from the spec: `replace(id, t)` overwrites the slot at `id`
(section 4.1).  It is only ever used on ids known to be in range. -/
def Types.replace (ts : Types) (id : TypeId) (t : RocType) : Types :=
  match id with
  | .norm n => { ts with entries := ts.entries.set n t }
  | .PENDING => ts

/-- Modelled from the spec: `depends(user, used)` records an edge,
idempotently (section 4.1). -/
def Types.depends (ts : Types) (user used : TypeId) : Types :=
  if (user, used) ∈ ts.deps then ts else { ts with deps := (user, used) :: ts.deps }

/-- Every panic site and failure mode of the lowering core, each modelled as
its own error value. -/
inductive Err where
  /-- `todo!("TODO give a nice error message for a non-concrete type ...")`. -/
  | nonConcrete
  /-- any other `todo!` (unsupported construct). -/
  | todoErr
  /-- `unreachable!` inside the lowering functions. -/
  | unreachableHit
  /-- a failed `unwrap()` / `expect(..)`. -/
  | unwrapFailed
  /-- a failed `debug_assert`. -/
  | debugAssertFailed
  /-- `resolve_pending_recursive_types`: no known recursive `TypeId` for a
  pending recursive variable. -/
  | noKnownRecursive
  /-- `resolve_pending_recursive_types`: the pending slot was not stored as a
  `RecursivePointer` with `PENDING` content. -/
  | pendingNotPointer
  /-- the embedding's fuel ran out (not a behaviour of the source). -/
  | outOfFuel
deriving DecidableEq, Repr

/-- The read-only environment of one lowering run: the upstream oracle of
section 6.1 plus the two deterministic name allocators of section 4.2
(`Structs.get_name`, `Enums.get_name`), which are modelled from the spec as
functions of the variable alone. -/
structure Oracle where
  /-- `subs.get_content_without_compacting(var)`. -/
  content : Variable → Content
  /-- `layout_cache.from_var(arena, var, subs)`; `none` is layout failure. -/
  layoutOf : Variable → Option Layout
  /-- Modelled from the spec: `StructNames.get_name(var)` (section 4.2). -/
  structName : Variable → String
  /-- Modelled from the spec: `EnumNames.get_name(var)` (section 4.2). -/
  enumName : Variable → String
  /-- `cmp_fields(label1, layout1, label2, layout2, target_info)`. -/
  cmpFields : String → Layout → String → Layout → Ordering
  /-- `Layout::is_dropped_because_empty`. -/
  dropEmpty : Layout → Bool

/-- The mutable state of one lowering run: the two recursion maps of the
`Env` plus the registry being built. -/
structure St where
  pending : List (TypeId × Variable)
  known : List (Variable × TypeId)
  types : Types
deriving DecidableEq, Repr

/-- `is_recursive_tag_union`. -/
def is_recursive_tag_union : Layout → Bool
  | .Union u =>
    match u with
    | .NonRecursive => false
    | .Recursive | .NonNullableUnwrapped | .NullableWrapped | .NullableUnwrapped _ => true
  | _ => false

/-- `struct_fields_needed`: count the payload variables whose layout is not
dropped because empty.  A layout failure is the `unwrap` panic. -/
def struct_fields_needed (o : Oracle) : List Variable → Except Err Nat
  | [] => .ok 0
  | v :: vs =>
    match o.layoutOf v with
    | none => .error .unwrapFailed
    | some l =>
      match struct_fields_needed o vs with
      | .error e => .error e
      | .ok n => .ok (if o.dropEmpty l then n else n + 1)

/-- The tag-name materialization at the top of `add_tag_union`: `Tag`
names are kept, a `Closure` tag is the `unreachable!` panic. -/
def materialize_tags : List (TagName × List Variable) → Except Err (List (String × List Variable))
  | [] => .ok []
  | (tn, pv) :: rest =>
    match tn with
    | .Closure _ => .error .unreachableHit
    | .Tag s =>
      match materialize_tags rest with
      | .error e => .error e
      | .ok r => .ok ((s, pv) :: r)

/-- Character-list comparison, mirroring the byte-wise `str::cmp` used by
`sort_by` in the source (identical on ASCII tag names). -/
def charListLe : List Char → List Char → Bool
  | [], _ => true
  | _ :: _, [] => false
  | a :: as, b :: bs =>
    if a.toNat < b.toNat then true
    else if b.toNat < a.toNat then false
    else charListLe as bs

/-- Strict character-list comparison. -/
def charListLt : List Char → List Char → Bool
  | _, [] => false
  | [], _ :: _ => true
  | a :: as, b :: bs =>
    if a.toNat < b.toNat then true
    else if b.toNat < a.toNat then false
    else charListLt as bs

/-- The tag-name order used by `tags.sort_by(name1.cmp(name2))`. -/
def strLe (a b : String) : Bool := charListLe a.data b.data

/-- Strict alphabetical order on tag names. -/
def strLt (a b : String) : Bool := charListLt a.data b.data

/-- The union name chosen in the multi-tag branch of `add_tag_union`: the
alias symbol if present, else the enum name allocator. -/
def union_name (o : Oracle) (optName : Option Symbol) (var : Variable) : String :=
  match optName with
  | some sym => sym.as_str
  | none => o.enumName var

/-- The positional payload fields `f0, f1, …` generated for multi-payload
tags. -/
def payload_fields (pvars : List Variable) : List (String × Variable) :=
  pvars.enum.map (fun p => ("f" ++ toString p.1, p.2))

/-- The name of the placeholder entry reserved by the multi-tag branch of
`add_tag_union`. -/
def placeholderName : String := "[THIS SHOULD BE REMOVED]"

/-- The placeholder registry entry reserved by the multi-tag branch of
`add_tag_union`. -/
def placeholderType : RocType := .Struct placeholderName []

/-- The per-field layout lookups performed while building `sortables` in
`add_struct`; a failed lookup is the `unwrap` panic. -/
def lookup_layouts (o : Oracle) : List (String × Variable) → Except Err (List (String × Variable × Layout))
  | [] => .ok []
  | (l, v) :: rest =>
    match o.layoutOf v with
    | none => .error .unwrapFailed
    | some lay =>
      match lookup_layouts o rest with
      | .error e => .error e
      | .ok r => .ok ((l, v, lay) :: r)

/-- The comparator of `sortables.sort_by` in `add_struct`, as the "not
greater" relation a stable sort keeps. -/
def fieldLE (o : Oracle) (a b : String × Variable × Layout) : Prop :=
  o.cmpFields a.1 a.2.2 b.1 b.2.2 ≠ Ordering.gt

instance (o : Oracle) : DecidableRel (fieldLE o) := fun a b => by
  unfold fieldLE; infer_instance

/-- The record-field filter of `add_type_help`: `Required` and `Demanded`
fields are kept, `Optional` fields are dropped. -/
def keep_field : String × RecordField → Option (String × Variable)
  | (l, .Required v) => some (l, v)
  | (l, .Demanded v) => some (l, v)
  | (_, .Optional _) => none

/-- The `match layout` at the end of the multi-tag branch of `add_tag_union`,
building the final `RocType` from the union layout and the classified tags.
The `debug_assert_eq!(tags.len(), 2)` of the `NullableUnwrapped` arm is
modelled as a guard.  This step reads no state: it only pops from the
classified tag list. -/
def tag_union_type (layout : Layout) (name : String) (tags : List (String × Option TypeId)) :
    Except Err RocType :=
  match layout with
  | .Union u =>
    match u with
    | .NonRecursive => .ok (.TagUnion (.NonRecursive name tags))
    | .Recursive => .ok (.TagUnion (.Recursive name tags))
    | .NonNullableUnwrapped => .error .todoErr
    | .NullableWrapped => .error .todoErr
    | .NullableUnwrapped nullRepresentsFirstTag =>
      match tags with
      | [t0, t1] =>
        let nullTag := if nullRepresentsFirstTag then t1.1 else t0.1
        let nonNull := if nullRepresentsFirstTag then t0 else t1
        match nonNull.2 with
        | none => .error .unwrapFailed
        | some payloadId =>
          .ok (.TagUnion (.NullableUnwrapped name nullTag nonNull.1 payloadId
                nullRepresentsFirstTag))
      | _ => .error .debugAssertFailed
  | .Builtin b =>
    match b with
    | .Int _ => .ok (.TagUnion (.Enumeration name (tags.map Prod.fst)))
    | .Bool => .ok .Bool
    | .Float _ | .Decimal | .Str | .Dict _ _ | .Set _ | .List _ => .error .unreachableHit
  | .Struct | .Boxed | .LambdaSet | .RecursivePointer => .error .unreachableHit

/-- The struct name chosen when lowering a record: the alias symbol if
present, else the struct name allocator. -/
def record_name (o : Oracle) (optName : Option Symbol) (var : Variable) : String :=
  match optName with
  | some sym => sym.as_str
  | none => o.structName var

/-- The name chosen for a single-tag union: the alias symbol if present,
else the tag name. -/
def single_tag_name (optName : Option Symbol) (tagName : String) : String :=
  match optName with
  | some sym => sym.as_str
  | none => tagName

mutual
/-- `Env::add_type`: look up the variable's layout (`expect` on failure) and
dispatch into `add_type_help` with no alias name. -/
def add_type (o : Oracle) (fuel : Nat) (var : Variable) (st : St) :
    Except Err (TypeId × St) :=
  match fuel with
  | 0 => .error .outOfFuel
  | fuel + 1 =>
    match o.layoutOf var with
    | none => .error .unwrapFailed
    | some layout => add_type_help o fuel layout var none st
termination_by structural fuel

/-- `add_type_help`: dispatch on the variable's `Content`. -/
def add_type_help (o : Oracle) (fuel : Nat) (layout : Layout) (var : Variable)
    (optName : Option Symbol) (st : St) : Except Err (TypeId × St) :=
  match fuel with
  | 0 => .error .outOfFuel
  | fuel + 1 =>
    match o.content var with
    | .FlexVar | .RigidVar | .FlexAbleVar | .RigidAbleVar => .error .nonConcrete
    | .Structure (.Record fields _ext) =>
      add_struct o fuel (record_name o optName var) (fields.filterMap keep_field) st
    | .Structure (.TagUnion tags _ext) => add_tag_union o fuel optName tags var st
    | .Structure (.RecursiveTagUnion _rec tags _ext) => add_tag_union o fuel optName tags var st
    | .Structure (.Apply _sym _args) =>
      match layout with
      | .Builtin b => add_builtin_type o fuel b var optName st
      | _ => .error .todoErr
    | .Structure .Func => .error .todoErr
    | .Structure .FunctionOrTagUnion => .error .todoErr
    | .Structure .Erroneous => .error .todoErr
    | .Structure .EmptyRecord => .error .todoErr
    | .Structure .EmptyTagUnion => .error .todoErr
    | .Alias sym realVar =>
      if sym.is_builtin then
        match layout with
        | .Builtin b => add_builtin_type o fuel b var optName st
        | _ => .error .unreachableHit
      else
        add_type_help o fuel layout realVar (some sym) st
    | .RangedNumber => .error .todoErr
    | .Error => .error .todoErr
    | .RecursionVar structVar =>
      .ok ((st.types.add (.RecursivePointer (o.enumName structVar) .PENDING)).2,
        { st with
          pending := ((st.types.add (.RecursivePointer (o.enumName structVar) .PENDING)).2,
            structVar) :: st.pending,
          types := (st.types.add (.RecursivePointer (o.enumName structVar) .PENDING)).1 })
termination_by structural fuel

/-- `add_builtin_type`. -/
def add_builtin_type (o : Oracle) (fuel : Nat) (b : Builtin) (var : Variable)
    (optName : Option Symbol) (st : St) : Except Err (TypeId × St) :=
  match fuel with
  | 0 => .error .outOfFuel
  | fuel + 1 =>
    match b with
    | .Int w =>
      match w with
      | .U8 => .ok ((st.types.add .U8).2, { st with types := (st.types.add .U8).1 })
      | .U16 => .ok ((st.types.add .U16).2, { st with types := (st.types.add .U16).1 })
      | .U32 => .ok ((st.types.add .U32).2, { st with types := (st.types.add .U32).1 })
      | .U64 => .ok ((st.types.add .U64).2, { st with types := (st.types.add .U64).1 })
      | .U128 => .ok ((st.types.add .U128).2, { st with types := (st.types.add .U128).1 })
      | .I8 => .ok ((st.types.add .I8).2, { st with types := (st.types.add .I8).1 })
      | .I16 => .ok ((st.types.add .I16).2, { st with types := (st.types.add .I16).1 })
      | .I32 => .ok ((st.types.add .I32).2, { st with types := (st.types.add .I32).1 })
      | .I64 => .ok ((st.types.add .I64).2, { st with types := (st.types.add .I64).1 })
      | .I128 => .ok ((st.types.add .I128).2, { st with types := (st.types.add .I128).1 })
    | .Float w =>
      match w with
      | .F32 => .ok ((st.types.add .F32).2, { st with types := (st.types.add .F32).1 })
      | .F64 => .ok ((st.types.add .F64).2, { st with types := (st.types.add .F64).1 })
      | .F128 => .ok ((st.types.add .F128).2, { st with types := (st.types.add .F128).1 })
    | .Bool => .ok ((st.types.add .Bool).2, { st with types := (st.types.add .Bool).1 })
    | .Decimal => .ok ((st.types.add .RocDec).2, { st with types := (st.types.add .RocDec).1 })
    | .Str => .ok ((st.types.add .RocStr).2, { st with types := (st.types.add .RocStr).1 })
    | .Dict keyLayout valLayout =>
      -- the source reuses `var` (and `opt_name`) for both key and value
      match add_type_help o fuel keyLayout var optName st with
      | .error e => .error e
      | .ok (keyId, st1) =>
        match add_type_help o fuel valLayout var optName st1 with
        | .error e => .error e
        | .ok (valId, st2) =>
          .ok ((st2.types.add (.RocDict keyId valId)).2,
            { st2 with types :=
              (((st2.types.add (.RocDict keyId valId)).1.depends
                  (st2.types.add (.RocDict keyId valId)).2 keyId).depends
                  (st2.types.add (.RocDict keyId valId)).2 valId) })
    | .Set elemLayout =>
      match add_type_help o fuel elemLayout var optName st with
      | .error e => .error e
      | .ok (elemId, st1) =>
        .ok ((st1.types.add (.RocSet elemId)).2,
          { st1 with types := ((st1.types.add (.RocSet elemId)).1.depends
              (st1.types.add (.RocSet elemId)).2 elemId) })
    | .List elemLayout =>
      match add_type_help o fuel elemLayout var optName st with
      | .error e => .error e
      | .ok (elemId, st1) =>
        .ok ((st1.types.add (.RocList elemId)).2,
          { st1 with types := ((st1.types.add (.RocList elemId)).1.depends
              (st1.types.add (.RocList elemId)).2 elemId) })
termination_by structural fuel

/-- `add_struct`: empty record, transparent wrapper, or layout-sorted
multi-field struct. -/
def add_struct (o : Oracle) (fuel : Nat) (name : String)
    (fields : List (String × Variable)) (st : St) : Except Err (TypeId × St) :=
  match fuel with
  | 0 => .error .outOfFuel
  | fuel + 1 =>
    match fields with
    | [] =>
      .ok ((st.types.add (.Struct name [])).2,
        { st with types := (st.types.add (.Struct name [])).1 })
    | [(_, fieldVar)] =>
      match add_type o fuel fieldVar st with
      | .error e => .error e
      | .ok (content, st1) =>
        .ok ((st1.types.add (.TransparentWrapper name content)).2,
          { st1 with types := (st1.types.add (.TransparentWrapper name content)).1 })
    | _ =>
      match lookup_layouts o fields with
      | .error e => .error e
      | .ok sortables =>
        match add_struct_fields o fuel (sortables.insertionSort (fieldLE o)) st with
        | .error e => .error e
        | .ok (outFields, st1) =>
          .ok ((st1.types.add (.Struct name outFields)).2,
            { st1 with types := (st1.types.add (.Struct name outFields)).1 })
termination_by structural fuel

/-- The field traversal at the end of `add_struct`: lower each sorted field
and pair its label with the resulting `TypeId`. -/
def add_struct_fields (o : Oracle) (fuel : Nat)
    (sorted : List (String × Variable × Layout)) (st : St) :
    Except Err (List (String × TypeId) × St) :=
  match fuel with
  | 0 => .error .outOfFuel
  | fuel + 1 =>
    match sorted with
    | [] => .ok ([], st)
    | (label, fieldVar, fieldLayout) :: rest =>
      match add_type_help o fuel fieldLayout fieldVar none st with
      | .error e => .error e
      | .ok (tid, st1) =>
        match add_struct_fields o fuel rest st1 with
        | .error e => .error e
        | .ok (outs, st2) => .ok ((label, tid) :: outs, st2)
termination_by structural fuel

/-- `add_tag_union`: single-tag collapse, or the placeholder/patch protocol
for multi-tag unions.  In the source the placeholder is reserved before the
union's layout is looked up; the lookup is checked first here, which is
behaviour-preserving because a failed lookup aborts the whole run and
discards the state. -/
def add_tag_union (o : Oracle) (fuel : Nat) (optName : Option Symbol)
    (unionTags : List (TagName × List Variable)) (var : Variable) (st : St) :
    Except Err (TypeId × St) :=
  match fuel with
  | 0 => .error .outOfFuel
  | fuel + 1 =>
    match materialize_tags unionTags with
    | .error e => .error e
    | .ok tags =>
      match tags with
      | [(tagName, payloadVars)] =>
        -- single-tag union: the tag-union representation is suppressed
        match payloadVars with
        | [] =>
          .ok ((st.types.add (.Struct (single_tag_name optName tagName) [])).2,
            { st with types := (st.types.add (.Struct (single_tag_name optName tagName) [])).1 })
        | [payloadVar] =>
          match add_type o fuel payloadVar st with
          | .error e => .error e
          | .ok (content, st1) =>
            .ok ((st1.types.add (.TransparentWrapper (single_tag_name optName tagName) content)).2,
              { st1 with types :=
                (st1.types.add (.TransparentWrapper (single_tag_name optName tagName) content)).1 })
        | _ =>
          add_struct o fuel (single_tag_name optName tagName) (payload_fields payloadVars) st
      | _ =>
        -- multi-tag union: reserve a placeholder slot, then patch it
        match o.layoutOf var with
        | none => .error .unwrapFailed
        | some layout =>
          match classify_tags o fuel layout (union_name o optName var)
              (tags.insertionSort (fun a b => strLe a.1 b.1 = true))
              { st with types := (st.types.add placeholderType).1 } with
          | .error e => .error e
          | .ok (classified, st2) =>
            match tag_union_type layout (union_name o optName var) classified with
            | .error e => .error e
            | .ok typ =>
              .ok ((st.types.add placeholderType).2,
                { st2 with types := st2.types.replace (st.types.add placeholderType).2 typ })
termination_by structural fuel

/-- The per-tag payload classification in the multi-tag branch of
`add_tag_union` (the body of its `map`). -/
def classify_tag (o : Oracle) (fuel : Nat) (layout : Layout) (unionName : String)
    (tagName : String) (payloadVars : List Variable) (st : St) :
    Except Err ((String × Option TypeId) × St) :=
  match fuel with
  | 0 => .error .outOfFuel
  | fuel + 1 =>
    match struct_fields_needed o payloadVars with
    | .error e => .error e
    | .ok n =>
      if n == 0 then
        -- no payload
        .ok ((tagName, none), st)
      else if n == 1 && !(is_recursive_tag_union layout) then
        -- non-recursive with one effective field: inline the payload's id
        match payloadVars with
        | [] => .error .unwrapFailed
        | payloadVar :: _ =>
          match o.layoutOf payloadVar with
          | none => .error .unwrapFailed
          | some payloadLayout =>
            match add_type_help o fuel payloadLayout payloadVar none st with
            | .error e => .error e
            | .ok (payloadId, st1) => .ok ((tagName, some payloadId), st1)
      else
        -- synthesize a struct type for the payload
        match add_struct o fuel (unionName ++ "_" ++ tagName) (payload_fields payloadVars) st with
        | .error e => .error e
        | .ok (structId, st1) => .ok ((tagName, some structId), st1)
termination_by structural fuel

/-- The classification `map` over the sorted tags of a multi-tag union. -/
def classify_tags (o : Oracle) (fuel : Nat) (layout : Layout) (unionName : String)
    (tags : List (String × List Variable)) (st : St) :
    Except Err (List (String × Option TypeId) × St) :=
  match fuel with
  | 0 => .error .outOfFuel
  | fuel + 1 =>
    match tags with
    | [] => .ok ([], st)
    | (tagName, payloadVars) :: rest =>
      match classify_tag o fuel layout unionName tagName payloadVars st with
      | .error e => .error e
      | .ok (r, st1) =>
        match classify_tags o fuel layout unionName rest st1 with
        | .error e => .error e
        | .ok (rs, st2) => .ok (r :: rs, st2)

termination_by structural fuel
end

/-- `Env::resolve_pending_recursive_types`: drain the pending map and patch
every pending `RecursivePointer` with the known recursive `TypeId` of its
variable.  A variable with no known recursive id, or a pending slot that is
not a `PENDING` recursive pointer, is an `unreachable!`-style failure. -/
def resolve_pending_recursive_types (pending : List (TypeId × Variable))
    (known : List (Variable × TypeId)) (types : Types) : Except Err Types :=
  match pending with
  | [] => .ok types
  | (typeId, var) :: rest =>
    match known.lookup var with
    | none => .error .noKnownRecursive
    | some actualTypeId =>
      match types.get typeId with
      | some (.RecursivePointer name .PENDING) =>
        resolve_pending_recursive_types rest known
          (types.replace typeId (.RecursivePointer name actualTypeId))
      | _ => .error .pendingNotPointer

/-- The walk over the entry variables in `vars_to_types`. -/
def lower_all (o : Oracle) (fuel : Nat) : List Variable → St → Except Err St
  | [], st => .ok st
  | v :: vs, st =>
    match add_type o fuel v st with
    | .error e => .error e
    | .ok (_, st1) => lower_all o fuel vs st1

/-- The fresh per-call environment state (section 3.4): empty recursion maps
and an empty registry. -/
def initSt : St := ⟨[], [], ⟨[], []⟩⟩

/-- `Env::vars_to_types`: walk every entry variable, then run the
recursion-resolution pass; the populated registry is the only output. -/
def vars_to_types (o : Oracle) (fuel : Nat) (vars : List Variable) : Except Err Types :=
  match lower_all o fuel vars initSt with
  | .error e => .error e
  | .ok st => resolve_pending_recursive_types st.pending st.known st.types

/-- The `TypeId`s a tag union mentions as tag payloads. -/
def RocTagUnion.childIds : RocTagUnion → List TypeId
  | .Enumeration _ _ => []
  | .NonRecursive _ tags => tags.filterMap Prod.snd
  | .Recursive _ tags => tags.filterMap Prod.snd
  | .NullableUnwrapped _ _ _ payload _ => [payload]

/-- Every `TypeId` a foreign type mentions. -/
def RocType.childIds : RocType → List TypeId
  | .RocList e => [e]
  | .RocSet e => [e]
  | .RocDict k v => [k, v]
  | .Struct _ fields => fields.map Prod.snd
  | .TransparentWrapper _ c => [c]
  | .TagUnion u => u.childIds
  | .RecursivePointer _ c => [c]
  | _ => []

/-- The `TypeId`s mentioned by the composite container builtins — the only
types for which the source records `depends` edges. -/
def RocType.containerChildIds : RocType → List TypeId
  | .RocList e => [e]
  | .RocSet e => [e]
  | .RocDict k v => [k, v]
  | _ => []

/-- The tag names of a `RocTagUnion` in the order they appear in the value:
the `tags` list of the list-shaped variants, and the `null_tag` followed by
the `non_null_tag` for `NullableUnwrapped`. -/
def RocTagUnion.tagNamesInOrder : RocTagUnion → List String
  | .Enumeration _ tags => tags
  | .NonRecursive _ tags => tags.map Prod.fst
  | .Recursive _ tags => tags.map Prod.fst
  | .NullableUnwrapped _ nullTag nonNullTag _ _ => [nullTag, nonNullTag]

/-- The tag names of the list-shaped variants (`Enumeration`, `NonRecursive`,
`Recursive`); `NullableUnwrapped` stores a pair of named fields rather than
an ordered list. -/
def RocTagUnion.listTagNames : RocTagUnion → List String
  | .Enumeration _ tags => tags
  | .NonRecursive _ tags => tags.map Prod.fst
  | .Recursive _ tags => tags.map Prod.fst
  | .NullableUnwrapped _ _ _ _ _ => []

/-! ## Well-formedness, invariants, and the step relation -/

/-- Tag names are unique within one union's content (the spec notes ties are
impossible within a union). -/
def contentTagsNodup : Content → Prop
  | .Structure (.TagUnion tags _) =>
    ∀ nts, materialize_tags tags = .ok nts → (nts.map Prod.fst).Nodup
  | .Structure (.RecursiveTagUnion _ tags _) =>
    ∀ nts, materialize_tags tags = .ok nts → (nts.map Prod.fst).Nodup
  | _ => True

/-- Oracle well-formedness: every union content has pairwise-distinct tag
names. -/
def WFOracle (o : Oracle) : Prop := ∀ v, contentTagsNodup (o.content v)

/-- No tag of a union content is literally named like the placeholder. -/
def contentTagNamesNotPh : Content → Prop
  | .Structure (.TagUnion tags _) =>
    ∀ p ∈ tags, ∀ str, p.1 = TagName.Tag str → str ≠ placeholderName
  | .Structure (.RecursiveTagUnion _ tags _) =>
    ∀ p ∈ tags, ∀ str, p.1 = TagName.Tag str → str ≠ placeholderName
  | _ => True

/-- Name sanity: no name source of the oracle ever produces the literal
placeholder name (an impossible user identifier). -/
def NoPhNames (o : Oracle) : Prop :=
  (∀ v, o.structName v ≠ placeholderName) ∧
  (∀ v sym rv, o.content v = Content.Alias sym rv → sym.str ≠ placeholderName) ∧
  (∀ v, contentTagNamesNotPh (o.content v))

/-- Any registry entry mentioning `PENDING` is a `RecursivePointer` with
`PENDING` content whose slot is recorded in the pending map. -/
def pendInv (st : St) : Prop :=
  ∀ n t, st.types.entries.get? n = some t → TypeId.PENDING ∈ t.childIds →
    (∃ nm, t = RocType.RecursivePointer nm .PENDING) ∧ ∃ v, (TypeId.norm n, v) ∈ st.pending

/-- Every container entry (`List`/`Set`/`Dict`) has its children recorded as
`depends` edges. -/
def depInv (st : St) : Prop :=
  ∀ n t, st.types.entries.get? n = some t → ∀ c ∈ t.containerChildIds,
    (TypeId.norm n, c) ∈ st.types.deps

/-- Every tag-union entry has the tag names of its list-shaped variants in
strict alphabetical order. -/
def sortInv (st : St) : Prop :=
  ∀ n u, st.types.entries.get? n = some (RocType.TagUnion u) →
    u.listTagNames.Pairwise (fun a b => strLt a b = true)

/-- The conjunction of the state invariants maintained by the lowering
functions (strict tag sorting needs the well-formed oracle). -/
def Inv (o : Oracle) (st : St) : Prop :=
  pendInv st ∧ depInv st ∧ (WFOracle o → sortInv st)

/-- A returned id is a registered dense index. -/
def IdIn (st : St) (tid : TypeId) : Prop :=
  ∃ n, tid = TypeId.norm n ∧ n < st.types.entries.length

/-- What one successful call of any lowering function does to the state:
the registry only grows, the pending map and dependency set only grow, the
known-recursive map is untouched, no placeholder entry is introduced, and
the invariants are preserved. -/
structure StepRel (o : Oracle) (st st' : St) : Prop where
  len : st.types.entries.length ≤ st'.types.entries.length
  pending : ∀ p ∈ st.pending, p ∈ st'.pending
  deps : ∀ p ∈ st.types.deps, p ∈ st'.types.deps
  known : st'.known = st.known
  ph : NoPhNames o → ∀ n, st'.types.entries.get? n = some placeholderType →
        st.types.entries.get? n = some placeholderType
  inv : Inv o st → Inv o st'

/-- Postcondition of the id-returning lowering functions: the call is a step
and the returned id denotes a registered slot. -/
def PostId (o : Oracle) (st : St) (r : TypeId × St) : Prop :=
  StepRel o st r.2 ∧ IdIn r.2 r.1

/-- The `TypeId`s mentioned by the composite variants named in the spec's
dependency-closure property (`Struct`, `TransparentWrapper`, `TagUnion`,
`List`, `Set`, `Dict`); a `RecursivePointer` is not a composite. -/
def RocType.compositeChildIds : RocType → List TypeId
  | .RocList e => [e]
  | .RocSet e => [e]
  | .RocDict k v => [k, v]
  | .Struct _ fields => fields.map Prod.snd
  | .TransparentWrapper _ c => [c]
  | .TagUnion u => u.childIds
  | _ => []

/-- Dependency closure as claimed: every composite entry has each of its
children recorded as a `depends` edge. -/
def depClosed (tys : Types) : Prop :=
  ∀ n (hn : n < tys.entries.length), ∀ c ∈ (tys.entries.get ⟨n, hn⟩).compositeChildIds,
    (TypeId.norm n, c) ∈ tys.deps

/-- The field labels of an emitted struct (other types carry no labelled
fields). -/
def labelsOf : RocType → List String
  | .Struct _ fields => fields.map Prod.fst
  | _ => []

/-- Alphabetical tag order as claimed for every variant: the names in their
order of appearance in the value are strictly sorted. -/
def tagUnionsOrdered (tys : Types) : Prop :=
  ∀ n (hn : n < tys.entries.length), ∀ u, tys.entries.get ⟨n, hn⟩ = RocType.TagUnion u →
    u.tagNamesInOrder.Pairwise (fun a b => strLt a b = true)

/-- A cons-list over 64-bit integers,
`ConsList : [Cons I64 ConsList, Nil]`, with the compiler-chosen
`NullableUnwrapped` layout: variable 0 is the recursive union, variable 1
the `I64` element, variable 2 the recursion variable pointing back at 0. -/
def consListOracle : Oracle where
  content v :=
    if v = 0 then .Structure (.RecursiveTagUnion 2 [(.Tag "Cons", [1, 2]), (.Tag "Nil", [])] 99)
    else if v = 1 then .Alias ⟨"Num.I64", true⟩ 1
    else .RecursionVar 0
  layoutOf v :=
    if v = 0 then some (.Union (.NullableUnwrapped true))
    else if v = 1 then some (.Builtin (.Int .I64))
    else some .RecursivePointer
  structName _ := "S"
  enumName _ := "ConsList"
  cmpFields _ _ _ _ := Ordering.lt
  dropEmpty _ := false

/-- An alias of a builtin number whose layout oracle answers a non-builtin
layout (used to exercise the `unreachable!` branch). -/
def builtinAliasOracle : Oracle where
  content _ := .Alias ⟨"Num.U8", true⟩ 1
  layoutOf _ := some .Struct
  structName _ := "S"
  enumName _ := "E"
  cmpFields _ _ _ _ := Ordering.lt
  dropEmpty _ := false

/-- A one-field record `{ a : U8 }`: variable 0 is the record, variable 1
the `U8` field. -/
def oneFieldRecordOracle : Oracle where
  content v :=
    if v = 0 then .Structure (.Record [("a", .Required 1)] 99)
    else .Alias ⟨"Num.U8", true⟩ 1
  layoutOf v := if v = 0 then some .Struct else some (.Builtin (.Int .U8))
  structName _ := "R"
  enumName _ := "E"
  cmpFields _ _ _ _ := Ordering.lt
  dropEmpty _ := false

/-- A `List U8` entry variable: variable 0 is the list type (an `Apply`
with a builtin `List` layout). -/
def listU8Oracle : Oracle where
  content v :=
    if v = 0 then .Structure (.Apply ⟨"List.List", true⟩ [1])
    else .Alias ⟨"Num.U8", true⟩ 1
  layoutOf v :=
    if v = 0 then some (.Builtin (.List (.Builtin (.Int .U8))))
    else some (.Builtin (.Int .U8))
  structName _ := "R"
  enumName _ := "E"
  cmpFields _ _ _ _ := Ordering.lt
  dropEmpty _ := false

/-- `MyResult : [Ok U32, Err Str]` with a non-recursive layout. -/
def resultOracle : Oracle where
  content v :=
    if v = 0 then .Structure (.TagUnion [(.Tag "Ok", [1]), (.Tag "Err", [2])] 99)
    else if v = 1 then .Alias ⟨"Num.U32", true⟩ 1
    else .Alias ⟨"Str", true⟩ 2
  layoutOf v :=
    if v = 0 then some (.Union .NonRecursive)
    else if v = 1 then some (.Builtin (.Int .U32))
    else some (.Builtin .Str)
  structName _ := "S"
  enumName _ := "MyResult"
  cmpFields _ _ _ _ := Ordering.lt
  dropEmpty _ := false

/-- A recursive union `U : [Cons U, Nil]` whose `Cons` payload is a single
recursion variable: variable 0 is the union, variable 1 the recursion
variable pointing back at 0. -/
def recPayloadOracle : Oracle where
  content v :=
    if v = 0 then .Structure (.RecursiveTagUnion 1 [(.Tag "Cons", [1]), (.Tag "Nil", [])] 99)
    else .RecursionVar 0
  layoutOf v :=
    if v = 0 then some (.Union .Recursive)
    else some .RecursivePointer
  structName _ := "S"
  enumName _ := "U"
  cmpFields _ _ _ _ := Ordering.lt
  dropEmpty _ := false

/-- A record `{ a : U8, b ? U8 }` whose `b` field is `Optional`: variable 0
is the record, variable 1 the `U8`. -/
def optFieldOracle : Oracle where
  content v :=
    if v = 0 then .Structure (.Record [("a", .Required 1), ("b", .Optional 1)] 99)
    else .Alias ⟨"Num.U8", true⟩ 1
  layoutOf v := if v = 0 then some .Struct else some (.Builtin (.Int .U8))
  structName _ := "R"
  enumName _ := "E"
  cmpFields _ _ _ _ := Ordering.lt
  dropEmpty _ := false

theorem stepRel_refl (o : Oracle) (st : St) : StepRel o st st :=
  ⟨Nat.le_refl _, fun _ h => h, fun _ h => h, rfl, fun _ _ h => h, fun h => h⟩

theorem StepRel.comp {o : Oracle} {st1 st2 st3 : St}
    (a : StepRel o st1 st2) (b : StepRel o st2 st3) : StepRel o st1 st3 :=
  ⟨Nat.le_trans a.len b.len, fun p h => b.pending p (a.pending p h),
   fun p h => b.deps p (a.deps p h), b.known.trans a.known,
   fun hnp n h => a.ph hnp n (b.ph hnp n h), fun h => b.inv (a.inv h)⟩

theorem IdIn.mono {o : Oracle} {st st' : St} {tid : TypeId}
    (h : IdIn st tid) (s : StepRel o st st') : IdIn st' tid := by
  obtain ⟨n, rfl, hn⟩ := h
  exact ⟨n, rfl, Nat.lt_of_lt_of_le hn s.len⟩

/-! ### Registry operation lemmas -/

theorem get?_append_one {α : Type} (l : List α) (a : α) (n : Nat) :
    (l ++ [a]).get? n = if n = l.length then some a else l.get? n := by
  rcases Nat.lt_trichotomy n l.length with h | h | h
  · rw [if_neg (Nat.ne_of_lt h)]
    simp [List.get?_eq_getElem?, List.getElem?_append_left h]
  · subst h
    simp [List.get?_eq_getElem?]
  · rw [if_neg (Nat.ne_of_gt h)]
    rw [List.get?_eq_getElem?, List.get?_eq_getElem?]
    rw [List.getElem?_eq_none (by simpa using h),
      List.getElem?_eq_none (Nat.le_of_lt h)]

theorem Types.add_entries (ts : Types) (t : RocType) :
    ((ts.add t).1).entries = ts.entries ++ [t] := rfl

theorem Types.add_deps_eq (ts : Types) (t : RocType) :
    ((ts.add t).1).deps = ts.deps := rfl

theorem Types.add_id (ts : Types) (t : RocType) :
    (ts.add t).2 = .norm ts.entries.length := rfl

theorem Types.depends_entries (ts : Types) (a b : TypeId) :
    (ts.depends a b).entries = ts.entries := by
  unfold Types.depends
  split <;> rfl

theorem Types.depends_deps_mono (ts : Types) (a b : TypeId) {p : TypeId × TypeId}
    (h : p ∈ ts.deps) : p ∈ (ts.depends a b).deps := by
  unfold Types.depends
  split
  · exact h
  · exact List.mem_cons_of_mem _ h

theorem Types.depends_deps_self (ts : Types) (a b : TypeId) :
    (a, b) ∈ (ts.depends a b).deps := by
  unfold Types.depends
  split
  · assumption
  · exact List.mem_cons_self _ _

theorem Types.replace_entries_norm (ts : Types) (n : Nat) (t : RocType) :
    (ts.replace (.norm n) t).entries = ts.entries.set n t := rfl

theorem Types.replace_deps (ts : Types) (id : TypeId) (t : RocType) :
    (ts.replace id t).deps = ts.deps := by
  cases id <;> rfl

/-! ### Step lemmas for the primitive state updates -/

/-- Appending a plain entry (no `PENDING` mention, no container children,
no unsorted tag union, not the placeholder) is a step. -/
theorem StepRel.addEntry (o : Oracle) (st : St) (t : RocType)
    (hph : NoPhNames o → t ≠ placeholderType)
    (hpend : TypeId.PENDING ∉ t.childIds)
    (hcont : t.containerChildIds = [])
    (hsort : ∀ u, t = RocType.TagUnion u → u.listTagNames.Pairwise (fun a b => strLt a b = true)) :
    StepRel o st { st with types := (st.types.add t).1 } := by
  refine ⟨?_, fun _ h => h, ?_, rfl, ?_, ?_⟩
  · simp [Types.add_entries]
  · intro p h
    simpa [Types.add_deps_eq] using h
  · intro hnp n h
    rw [show ({ st with types := (st.types.add t).1 } : St).types.entries
        = st.types.entries ++ [t] from rfl, get?_append_one] at h
    split at h
    · cases h
      exact absurd rfl (hph hnp)
    · exact h
  · rintro ⟨hp, hd, hs⟩
    refine ⟨?_, ?_, ?_⟩
    · intro n u hget hmem
      rw [show ({ st with types := (st.types.add t).1 } : St).types.entries
          = st.types.entries ++ [t] from rfl, get?_append_one] at hget
      split at hget
      · cases hget
        exact absurd hmem hpend
      · exact (hp n u hget hmem).imp id (fun ⟨v, hv⟩ => ⟨v, hv⟩)
    · intro n u hget c hc
      rw [show ({ st with types := (st.types.add t).1 } : St).types.entries
          = st.types.entries ++ [t] from rfl, get?_append_one] at hget
      rw [Types.add_deps_eq]
      split at hget
      · cases hget
        rw [hcont] at hc
        cases hc
      · exact hd n u hget c hc
    · intro hwf n u hget
      rw [show ({ st with types := (st.types.add t).1 } : St).types.entries
          = st.types.entries ++ [t] from rfl, get?_append_one] at hget
      split at hget
      · cases hget
        exact hsort u rfl
      · exact hs hwf n u hget

/-- Appending a `PENDING` recursive pointer while recording it in the
pending map is a step. -/
theorem StepRel.addRecPointer (o : Oracle) (st : St) (nm : String) (sv : Variable) :
    StepRel o st
      { st with
        pending := ((st.types.add (.RecursivePointer nm .PENDING)).2, sv) :: st.pending,
        types := (st.types.add (.RecursivePointer nm .PENDING)).1 } := by
  refine ⟨?_, fun p h => List.mem_cons_of_mem _ h, ?_, rfl, ?_, ?_⟩
  · simp [Types.add_entries]
  · intro p h
    simpa [Types.add_deps_eq] using h
  · intro _ n h
    rw [show (st.types.add (.RecursivePointer nm .PENDING)).1.entries
        = st.types.entries ++ [RocType.RecursivePointer nm .PENDING] from rfl,
      get?_append_one] at h
    split at h
    · cases h
    · exact h
  · rintro ⟨hp, hd, hs⟩
    refine ⟨?_, ?_, ?_⟩
    · intro n t hget hmem
      rw [show (st.types.add (.RecursivePointer nm .PENDING)).1.entries
          = st.types.entries ++ [RocType.RecursivePointer nm .PENDING] from rfl,
        get?_append_one] at hget
      split at hget
      next heq =>
        cases hget
        subst heq
        exact ⟨⟨nm, rfl⟩, sv, by simp [Types.add_id]⟩
      next =>
        obtain ⟨h1, v, hv⟩ := hp n t hget hmem
        exact ⟨h1, v, List.mem_cons_of_mem _ hv⟩
    · intro n t hget c hc
      rw [show (st.types.add (.RecursivePointer nm .PENDING)).1.entries
          = st.types.entries ++ [RocType.RecursivePointer nm .PENDING] from rfl,
        get?_append_one] at hget
      rw [Types.add_deps_eq]
      split at hget
      · cases hget
        cases hc
      · exact hd n t hget c hc
    · intro hwf n u hget
      rw [show (st.types.add (.RecursivePointer nm .PENDING)).1.entries
          = st.types.entries ++ [RocType.RecursivePointer nm .PENDING] from rfl,
        get?_append_one] at hget
      split at hget
      · cases hget
      · exact hs hwf n u hget

/-- Appending a one-child container entry and recording its dependency edge
is a step. -/
theorem StepRel.addContainer1 (o : Oracle) (st : St) (t : RocType) (e : TypeId)
    (hch : t.childIds = [e]) (hcont : t.containerChildIds = [e])
    (he : e ≠ TypeId.PENDING) (hph : t ≠ placeholderType)
    (hnu : ∀ u, t ≠ RocType.TagUnion u) :
    StepRel o st { st with types := ((st.types.add t).1).depends (st.types.add t).2 e } := by
  have hent : (((st.types.add t).1).depends (st.types.add t).2 e).entries
      = st.types.entries ++ [t] := by
    rw [Types.depends_entries, Types.add_entries]
  refine ⟨?_, fun _ h => h, ?_, rfl, ?_, ?_⟩
  · simp [hent]
  · intro p h
    exact Types.depends_deps_mono _ _ _ (by simpa [Types.add_deps_eq] using h)
  · intro _ n h
    rw [show ({ st with types := ((st.types.add t).1).depends (st.types.add t).2 e } : St).types.entries
        = st.types.entries ++ [t] from hent, get?_append_one] at h
    split at h
    · cases h
      exact absurd rfl hph
    · exact h
  · rintro ⟨hp, hd, hs⟩
    refine ⟨?_, ?_, ?_⟩
    · intro n u hget hmem
      rw [show ({ st with types := ((st.types.add t).1).depends (st.types.add t).2 e } : St).types.entries
          = st.types.entries ++ [t] from hent, get?_append_one] at hget
      split at hget
      · cases hget
        rw [hch] at hmem
        simp at hmem
        exact absurd hmem.symm he
      · exact (hp n u hget hmem).imp id (fun ⟨v, hv⟩ => ⟨v, hv⟩)
    · intro n u hget c hc
      rw [show ({ st with types := ((st.types.add t).1).depends (st.types.add t).2 e } : St).types.entries
          = st.types.entries ++ [t] from hent, get?_append_one] at hget
      split at hget
      next heq =>
        cases hget
        rw [hcont] at hc
        simp at hc
        subst hc
        subst heq
        exact Types.depends_deps_self _ _ _
      next =>
        exact Types.depends_deps_mono _ _ _
          (by simpa [Types.add_deps_eq] using hd n u hget c hc)
    · intro hwf n u hget
      rw [show ({ st with types := ((st.types.add t).1).depends (st.types.add t).2 e } : St).types.entries
          = st.types.entries ++ [t] from hent, get?_append_one] at hget
      split at hget
      · cases hget
        exact absurd rfl (hnu u)
      · exact hs hwf n u hget

/-- Appending a two-child container entry (`Dict`) and recording both
dependency edges is a step. -/
theorem StepRel.addContainer2 (o : Oracle) (st : St) (t : RocType) (k v : TypeId)
    (hch : t.childIds = [k, v]) (hcont : t.containerChildIds = [k, v])
    (hk : k ≠ TypeId.PENDING) (hv : v ≠ TypeId.PENDING) (hph : t ≠ placeholderType)
    (hnu : ∀ u, t ≠ RocType.TagUnion u) :
    StepRel o st { st with types :=
      (((st.types.add t).1).depends (st.types.add t).2 k).depends (st.types.add t).2 v } := by
  have hent : ((((st.types.add t).1).depends (st.types.add t).2 k).depends
      (st.types.add t).2 v).entries = st.types.entries ++ [t] := by
    rw [Types.depends_entries, Types.depends_entries, Types.add_entries]
  refine ⟨?_, fun _ h => h, ?_, rfl, ?_, ?_⟩
  · simp [hent]
  · intro p h
    exact Types.depends_deps_mono _ _ _ (Types.depends_deps_mono _ _ _
      (by simpa [Types.add_deps_eq] using h))
  · intro _ n h
    rw [show ({ st with types :=
        (((st.types.add t).1).depends (st.types.add t).2 k).depends (st.types.add t).2 v } : St).types.entries
        = st.types.entries ++ [t] from hent, get?_append_one] at h
    split at h
    · cases h
      exact absurd rfl hph
    · exact h
  · rintro ⟨hp, hd, hs⟩
    refine ⟨?_, ?_, ?_⟩
    · intro n u hget hmem
      rw [show ({ st with types :=
          (((st.types.add t).1).depends (st.types.add t).2 k).depends (st.types.add t).2 v } : St).types.entries
          = st.types.entries ++ [t] from hent, get?_append_one] at hget
      split at hget
      · cases hget
        rw [hch] at hmem
        simp at hmem
        rcases hmem with h | h
        · exact absurd h.symm hk
        · exact absurd h.symm hv
      · exact (hp n u hget hmem).imp id (fun ⟨w, hw⟩ => ⟨w, hw⟩)
    · intro n u hget c hc
      rw [show ({ st with types :=
          (((st.types.add t).1).depends (st.types.add t).2 k).depends (st.types.add t).2 v } : St).types.entries
          = st.types.entries ++ [t] from hent, get?_append_one] at hget
      split at hget
      next heq =>
        cases hget
        rw [hcont] at hc
        simp at hc
        subst heq
        rcases hc with h | h
        · subst h
          exact Types.depends_deps_mono _ _ _ (Types.depends_deps_self _ _ _)
        · subst h
          exact Types.depends_deps_self _ _ _
      next =>
        exact Types.depends_deps_mono _ _ _ (Types.depends_deps_mono _ _ _
          (by simpa [Types.add_deps_eq] using hd n u hget c hc))
    · intro hwf n u hget
      rw [show ({ st with types :=
          (((st.types.add t).1).depends (st.types.add t).2 k).depends (st.types.add t).2 v } : St).types.entries
          = st.types.entries ++ [t] from hent, get?_append_one] at hget
      split at hget
      · cases hget
        exact absurd rfl (hnu u)
      · exact hs hwf n u hget

/-- `Char.toNat` is injective. -/
theorem char_toNat_inj {a b : Char} (h : a.toNat = b.toNat) : a = b :=
  Char.ext (UInt32.ext h)

/-- `String.data` is injective. -/
theorem string_data_inj {a b : String} (h : a.data = b.data) : a = b := by
  cases a
  cases b
  simp only at h
  rw [h]

/-- The tag-name order is total. -/
theorem charListLe_total : ∀ as bs, charListLe as bs = true ∨ charListLe bs as = true := by
  intro as
  induction as with
  | nil =>
    intro bs
    exact Or.inl rfl
  | cons a as ih =>
    intro bs
    cases bs with
    | nil => exact Or.inr rfl
    | cons b bs =>
      simp only [charListLe]
      rcases Nat.lt_trichotomy a.toNat b.toNat with h | h | h
      · left
        simp [h]
      · have h2 : ¬ a.toNat < b.toNat := by omega
        have h3 : ¬ b.toNat < a.toNat := by omega
        simpa [h2, h3] using ih bs
      · right
        simp [h, Nat.lt_asymm h]

/-- The tag-name order is transitive. -/
theorem charListLe_trans : ∀ as bs cs, charListLe as bs = true → charListLe bs cs = true →
    charListLe as cs = true := by
  intro as
  induction as with
  | nil => intro bs cs h1 h2; rfl
  | cons a as ih =>
    intro bs cs h1 h2
    cases bs with
    | nil => simp [charListLe] at h1
    | cons b bs =>
      cases cs with
      | nil => simp [charListLe] at h2
      | cons c cs =>
        simp only [charListLe] at h1 h2 ⊢
        by_cases hab : a.toNat < b.toNat
        · by_cases hbc : b.toNat < c.toNat
          · simp [Nat.lt_trans hab hbc]
          · by_cases hcb : c.toNat < b.toNat
            · simp [hbc, hcb] at h2
            · have : a.toNat < c.toNat := by omega
              simp [this]
        · by_cases hba : b.toNat < a.toNat
          · simp [hab, hba] at h1
          · simp only [hab, hba, if_false] at h1
            by_cases hbc : b.toNat < c.toNat
            · have : a.toNat < c.toNat := by omega
              simp [this]
            · by_cases hcb : c.toNat < b.toNat
              · simp [hbc, hcb] at h2
              · simp only [hbc, hcb, if_false] at h2
                have hac : ¬ a.toNat < c.toNat := by omega
                have hca : ¬ c.toNat < a.toNat := by omega
                simp only [hac, hca, if_false]
                exact ih bs cs h1 h2

/-- Non-strict order plus distinctness gives the strict order. -/
theorem charListLt_of_le_of_ne : ∀ as bs, charListLe as bs = true → as ≠ bs →
    charListLt as bs = true := by
  intro as
  induction as with
  | nil =>
    intro bs h hne
    cases bs with
    | nil => exact absurd rfl hne
    | cons b bs => rfl
  | cons a as ih =>
    intro bs h hne
    cases bs with
    | nil => simp [charListLe] at h
    | cons b bs =>
      simp only [charListLe] at h
      simp only [charListLt]
      by_cases hab : a.toNat < b.toNat
      · simp [hab]
      · by_cases hba : b.toNat < a.toNat
        · simp [hab, hba] at h
        · have heq : a = b := char_toNat_inj (by omega)
          simp only [hab, hba, if_false] at h ⊢
          apply ih bs h
          intro hcon
          exact hne (by rw [heq, hcon])

/-- Sorting a tag list with distinct names by name yields strictly ordered
names. -/
theorem pairwise_lt_sorted_names (tags : List (String × List Variable))
    (hnd : (tags.map Prod.fst).Nodup) :
    ((tags.insertionSort (fun a b => strLe a.1 b.1 = true)).map Prod.fst).Pairwise
      (fun a b => strLt a b = true) := by
  haveI ht : IsTotal (String × List Variable) (fun a b => strLe a.1 b.1 = true) :=
    ⟨fun a b => charListLe_total a.1.data b.1.data⟩
  haveI htr : IsTrans (String × List Variable) (fun a b => strLe a.1 b.1 = true) :=
    ⟨fun a b c h1 h2 => charListLe_trans a.1.data b.1.data c.1.data h1 h2⟩
  have hs : (tags.insertionSort (fun a b => strLe a.1 b.1 = true)).Pairwise
      (fun a b => strLe a.1 b.1 = true) :=
    List.sorted_insertionSort _ tags
  have hperm := List.perm_insertionSort (fun a b => strLe a.1 b.1 = true) tags
  have hnd2 : ((tags.insertionSort (fun a b => strLe a.1 b.1 = true)).map Prod.fst).Nodup :=
    ((hperm.map Prod.fst).nodup_iff).2 hnd
  have hnd3 : List.Pairwise (fun a b : String × List Variable => a.1 ≠ b.1)
      (tags.insertionSort (fun a b => strLe a.1 b.1 = true)) := by
    have h4 : List.Pairwise (fun a b : String => a ≠ b)
        ((tags.insertionSort (fun a b => strLe a.1 b.1 = true)).map Prod.fst) := hnd2
    rwa [List.pairwise_map] at h4
  rw [List.pairwise_map]
  refine (hs.and hnd3).imp ?_
  rintro a b ⟨hle, hne⟩
  exact charListLt_of_le_of_ne a.1.data b.1.data hle
    (fun hd => hne (string_data_inj hd))

/-- Shape of the final union type built by `tag_union_type`: it is `Bool` or
a `TagUnion`, never the placeholder; its children come from the classified
payloads; and the list-shaped variants carry exactly the classified names. -/
theorem tag_union_type_ok {lay : Layout} {nm : String}
    {ts : List (String × Option TypeId)} {typ : RocType}
    (h : tag_union_type lay nm ts = .ok typ) :
    typ.containerChildIds = [] ∧ typ ≠ placeholderType ∧
    (∀ c ∈ typ.childIds, c ∈ ts.filterMap Prod.snd) ∧
    (∀ u, typ = RocType.TagUnion u →
      u.listTagNames = ts.map Prod.fst ∨ u.listTagNames = []) ∧
    (typ = RocType.Bool ∨ ∃ u, typ = RocType.TagUnion u) := by
  cases lay with
  | Union u =>
    cases u with
    | NonRecursive =>
      simp only [tag_union_type] at h
      cases h
      refine ⟨rfl, by simp [placeholderType], ?_, ?_, Or.inr ⟨_, rfl⟩⟩
      · intro c hc
        simpa [RocType.childIds, RocTagUnion.childIds] using hc
      · rintro u h
        cases h
        exact Or.inl rfl
    | Recursive =>
      simp only [tag_union_type] at h
      cases h
      refine ⟨rfl, by simp [placeholderType], ?_, ?_, Or.inr ⟨_, rfl⟩⟩
      · intro c hc
        simpa [RocType.childIds, RocTagUnion.childIds] using hc
      · rintro u h
        cases h
        exact Or.inl rfl
    | NonNullableUnwrapped =>
      simp only [tag_union_type] at h
      cases h
    | NullableWrapped =>
      simp only [tag_union_type] at h
      cases h
    | NullableUnwrapped flag =>
      simp only [tag_union_type] at h
      rcases ts with _ | ⟨t0, _ | ⟨t1, _ | ⟨t2, rest⟩⟩⟩
      · cases h
      · cases h
      · by_cases hb : flag
        · subst hb
          simp only [if_true] at h
          rcases hpid : t0.2 with _ | pid
          · rw [hpid] at h
            cases h
          · rw [hpid] at h
            cases h
            refine ⟨rfl, by simp [placeholderType], ?_, ?_, Or.inr ⟨_, rfl⟩⟩
            · intro c hc
              simp [RocType.childIds, RocTagUnion.childIds] at hc
              subst hc
              exact List.mem_filterMap.2 ⟨t0, by simp, hpid⟩
            · rintro u h
              cases h
              exact Or.inr rfl
        · rw [Bool.not_eq_true] at hb
          subst hb
          simp only [Bool.false_eq_true, if_false] at h
          rcases hpid : t1.2 with _ | pid
          · rw [hpid] at h
            cases h
          · rw [hpid] at h
            cases h
            refine ⟨rfl, by simp [placeholderType], ?_, ?_, Or.inr ⟨_, rfl⟩⟩
            · intro c hc
              simp [RocType.childIds, RocTagUnion.childIds] at hc
              subst hc
              exact List.mem_filterMap.2 ⟨t1, by simp, hpid⟩
            · rintro u h
              cases h
              exact Or.inr rfl
      · cases h
  | Builtin b =>
    cases b with
    | Int w =>
      simp only [tag_union_type] at h
      cases h
      refine ⟨rfl, by simp [placeholderType], ?_, ?_, Or.inr ⟨_, rfl⟩⟩
      · intro c hc
        simp [RocType.childIds, RocTagUnion.childIds] at hc
      · rintro u h
        cases h
        exact Or.inl rfl
    | Bool =>
      simp only [tag_union_type] at h
      cases h
      exact ⟨rfl, by simp [placeholderType], by simp [RocType.childIds], by rintro u ⟨⟩,
        Or.inl rfl⟩
    | Float w =>
      simp only [tag_union_type] at h
      cases h
    | Decimal =>
      simp only [tag_union_type] at h
      cases h
    | Str =>
      simp only [tag_union_type] at h
      cases h
    | Dict k v =>
      simp only [tag_union_type] at h
      cases h
    | Set e =>
      simp only [tag_union_type] at h
      cases h
    | List e =>
      simp only [tag_union_type] at h
      cases h
  | Struct =>
    simp only [tag_union_type] at h
    cases h
  | Boxed =>
    simp only [tag_union_type] at h
    cases h
  | LambdaSet =>
    simp only [tag_union_type] at h
    cases h
  | RecursivePointer =>
    simp only [tag_union_type] at h
    cases h

/-- A synthesized payload-struct name contains an underscore, so it is never
the placeholder name. -/
theorem underscore_ne_placeholder (a b : String) : a ++ "_" ++ b ≠ placeholderName := by
  intro h
  have hd : ('_' : Char) ∈ (a ++ "_" ++ b).data := by
    simp [String.data_append]
  rw [h] at hd
  exact absurd hd (by decide)

/-- Each materialized tag comes from a `Tag`-named tag of the union. -/
theorem materialize_tags_mem :
    ∀ {tags : List (TagName × List Variable)} {nts : List (String × List Variable)},
    materialize_tags tags = .ok nts → ∀ p ∈ nts, (TagName.Tag p.1, p.2) ∈ tags := by
  intro tags
  induction tags with
  | nil =>
    intro nts h p hp
    simp only [materialize_tags] at h
    cases h
    cases hp
  | cons hd tl ih =>
    intro nts h p hp
    obtain ⟨tn, pv⟩ := hd
    simp only [materialize_tags] at h
    split at h
    · cases h
    next s =>
      split at h
      · cases h
      next r hr =>
        cases h
        rcases List.mem_cons.1 hp with h | h
        · subst h
          exact List.mem_cons_self _ _
        · exact List.mem_cons_of_mem _ (ih hr p h)

/-- `lookup_layouts` preserves the field labels in order. -/
theorem lookup_layouts_fst :
    ∀ {fields : List (String × Variable)} {res : List (String × Variable × Layout)},
    lookup_layouts o fields = .ok res → res.map (fun x => x.1) = fields.map (fun x => x.1) := by
  intro fields
  induction fields with
  | nil =>
    intro res h
    simp only [lookup_layouts] at h
    cases h
    rfl
  | cons hd tl ih =>
    intro res h
    simp only [lookup_layouts] at h
    split at h
    · cases h
    · split at h
      · cases h
      next r hr =>
        cases h
        simp [ih hr]

/-- The state invariant holds for the empty initial state. -/
theorem Inv.initial (o : Oracle) : Inv o initSt := by
  refine ⟨?_, ?_, ?_⟩
  · intro n t h
    simp [initSt] at h
  · intro n t h
    simp [initSt] at h
  · intro _ n u h
    simp [initSt] at h

/-- Appending a plain entry preserves the invariant. -/
theorem Inv.addEntryKeeps (o : Oracle) (st : St) (t : RocType)
    (hpend : TypeId.PENDING ∉ t.childIds)
    (hcont : t.containerChildIds = [])
    (hsort : ∀ u, t = RocType.TagUnion u → u.listTagNames.Pairwise (fun a b => strLt a b = true))
    (h : Inv o st) : Inv o { st with types := (st.types.add t).1 } := by
  obtain ⟨hp, hd, hs⟩ := h
  refine ⟨?_, ?_, ?_⟩
  · intro n u hget hmem
    rw [show ({ st with types := (st.types.add t).1 } : St).types.entries
        = st.types.entries ++ [t] from rfl, get?_append_one] at hget
    split at hget
    · cases hget
      exact absurd hmem hpend
    · exact (hp n u hget hmem).imp id (fun ⟨v, hv⟩ => ⟨v, hv⟩)
  · intro n u hget c hc
    rw [show ({ st with types := (st.types.add t).1 } : St).types.entries
        = st.types.entries ++ [t] from rfl, get?_append_one] at hget
    split at hget
    · cases hget
      rw [hcont] at hc
      cases hc
    · exact hd n u hget c hc
  · intro hwf n u hget
    rw [show ({ st with types := (st.types.add t).1 } : St).types.entries
        = st.types.entries ++ [t] from rfl, get?_append_one] at hget
    split at hget
    · cases hget
      exact hsort u rfl
    · exact hs hwf n u hget

/-- A plain registry append satisfies the postcondition. -/
theorem PostId.addEntryOk (o : Oracle) (st : St) (t : RocType)
    (hph : NoPhNames o → t ≠ placeholderType)
    (hpend : TypeId.PENDING ∉ t.childIds)
    (hcont : t.containerChildIds = [])
    (hsort : ∀ u, t = RocType.TagUnion u → u.listTagNames.Pairwise (fun a b => strLt a b = true)) :
    PostId o st ((st.types.add t).2, { st with types := (st.types.add t).1 }) :=
  ⟨StepRel.addEntry o st t hph hpend hcont hsort,
   st.types.entries.length, rfl, by simp [Types.add_entries]⟩

/-- The master induction over fuel: every successful call of any lowering
function is a `StepRel` step, returns registered ids, and (for the list
helpers) preserves labels and names positionally. -/
theorem step_master (o : Oracle) : ∀ fuel : Nat,
    (∀ v st r, add_type o fuel v st = .ok r → PostId o st r) ∧
    (∀ lay v nm st r,
      (NoPhNames o → ∀ sym, nm = some sym → sym.str ≠ placeholderName) →
      add_type_help o fuel lay v nm st = .ok r → PostId o st r) ∧
    (∀ b v nm st r,
      (NoPhNames o → ∀ sym, nm = some sym → sym.str ≠ placeholderName) →
      add_builtin_type o fuel b v nm st = .ok r → PostId o st r) ∧
    (∀ name fields st r,
      (NoPhNames o → name ≠ placeholderName) →
      add_struct o fuel name fields st = .ok r → PostId o st r) ∧
    (∀ sorted st out, add_struct_fields o fuel sorted st = .ok out →
      StepRel o st out.2 ∧ (∀ p ∈ out.1, IdIn out.2 p.2) ∧
      out.1.map Prod.fst = sorted.map (fun x => x.1)) ∧
    (∀ nm tags v st r,
      (NoPhNames o → ∀ sym, nm = some sym → sym.str ≠ placeholderName) →
      (WFOracle o → ∀ nts, materialize_tags tags = Except.ok nts →
        (nts.map Prod.fst).Nodup) →
      (NoPhNames o → ∀ nts, materialize_tags tags = Except.ok nts →
        ∀ p ∈ nts, p.1 ≠ placeholderName) →
      add_tag_union o fuel nm tags v st = .ok r → PostId o st r) ∧
    (∀ lay un tn pv st res, classify_tag o fuel lay un tn pv st = .ok res →
      StepRel o st res.2 ∧ res.1.1 = tn ∧ (∀ pid, res.1.2 = some pid → IdIn res.2 pid)) ∧
    (∀ lay un tags st out, classify_tags o fuel lay un tags st = .ok out →
      StepRel o st out.2 ∧ out.1.map Prod.fst = tags.map Prod.fst ∧
      (∀ p ∈ out.1, ∀ pid, p.2 = some pid → IdIn out.2 pid)) := by
  intro fuel
  induction fuel with
  | zero =>
    refine ⟨?_, ?_, ?_, ?_, ?_, ?_, ?_, ?_⟩
    · intro v st r h
      simp only [add_type] at h
      cases h
    · intro lay v nm st r _ h
      simp only [add_type_help] at h
      cases h
    · intro b v nm st r _ h
      simp only [add_builtin_type] at h
      cases h
    · intro name fields st r _ h
      simp only [add_struct] at h
      cases h
    · intro sorted st out h
      simp only [add_struct_fields] at h
      cases h
    · intro nm tags v st r _ _ _ h
      simp only [add_tag_union] at h
      cases h
    · intro lay un tn pv st res h
      simp only [classify_tag] at h
      cases h
    · intro lay un tags st out h
      simp only [classify_tags] at h
      cases h
  | succ fuel ih =>
    obtain ⟨ihT, ihH, ihB, ihS, ihSF, ihTU, ihCT, ihCTs⟩ := ih
    refine ⟨?_, ?_, ?_, ?_, ?_, ?_, ?_, ?_⟩
    · -- add_type
      intro v st r h
      simp only [add_type] at h
      split at h
      · cases h
      · exact ihH _ _ _ _ _ (fun _ _ hs => Option.noConfusion hs) h
    · -- add_type_help
      intro lay v nm st r hnm h
      simp only [add_type_help] at h
      split at h <;> try (cases h)
      · -- Record
        refine ihS _ _ _ _ ?_ h
        intro hnp
        cases nm with
        | some sym => exact hnm hnp sym rfl
        | none => exact hnp.1 v
      · -- TagUnion
        rename_i tags ext heq
        refine ihTU _ _ _ _ _ hnm ?_ ?_ h
        · intro hwf
          have hv := hwf v
          rw [heq] at hv
          simp only [contentTagsNodup] at hv
          exact hv
        · intro hnp
          have hv := hnp.2.2 v
          rw [heq] at hv
          simp only [contentTagNamesNotPh] at hv
          intro nts hmat p hp
          exact hv (TagName.Tag p.1, p.2) (materialize_tags_mem hmat p hp) p.1 rfl
      · -- RecursiveTagUnion
        rename_i recVar tags ext heq
        refine ihTU _ _ _ _ _ hnm ?_ ?_ h
        · intro hwf
          have hv := hwf v
          rw [heq] at hv
          simp only [contentTagsNodup] at hv
          exact hv
        · intro hnp
          have hv := hnp.2.2 v
          rw [heq] at hv
          simp only [contentTagNamesNotPh] at hv
          intro nts hmat p hp
          exact hv (TagName.Tag p.1, p.2) (materialize_tags_mem hmat p hp) p.1 rfl
      · -- Apply
        split at h <;> try (cases h)
        exact ihB _ _ _ _ _ hnm h
      · -- Alias
        rename_i sym realVar heq
        split at h
        · split at h <;> try (cases h)
          exact ihB _ _ _ _ _ hnm h
        · refine ihH _ _ _ _ _ ?_ h
          intro hnp sym2 hs
          cases hs
          exact hnp.2.1 v sym realVar heq
      · -- RecursionVar
        rename_i structVar heq
        exact ⟨StepRel.addRecPointer o st (o.enumName structVar) structVar,
          st.types.entries.length, rfl, by simp [Types.add_entries]⟩
    · -- add_builtin_type
      intro b v nm st r hnm h
      simp only [add_builtin_type] at h
      split at h
      · -- Int
        split at h <;>
          (cases h
           exact PostId.addEntryOk _ _ _ (fun _ => by decide) (by decide) rfl
            (fun u hu => nomatch hu))
      · -- Float
        split at h <;>
          (cases h
           exact PostId.addEntryOk _ _ _ (fun _ => by decide) (by decide) rfl
            (fun u hu => nomatch hu))
      · -- Bool
        cases h
        exact PostId.addEntryOk _ _ _ (fun _ => by decide) (by decide) rfl
          (fun u hu => nomatch hu)
      · -- Decimal
        cases h
        exact PostId.addEntryOk _ _ _ (fun _ => by decide) (by decide) rfl
          (fun u hu => nomatch hu)
      · -- Str
        cases h
        exact PostId.addEntryOk _ _ _ (fun _ => by decide) (by decide) rfl
          (fun u hu => nomatch hu)
      · -- Dict
        split at h
        · cases h
        next keyId st1 hkey =>
          split at h
          · cases h
          next valId st2 hval =>
            cases h
            obtain ⟨sk, ik⟩ := ihH _ _ _ _ _ hnm hkey
            obtain ⟨sv2, iv⟩ := ihH _ _ _ _ _ hnm hval
            have ik2 : IdIn st2 keyId := IdIn.mono ik sv2
            obtain ⟨nk, hknorm, _⟩ := ik2
            have iv2 : IdIn st2 valId := iv
            obtain ⟨nv, hvnorm, _⟩ := iv2
            refine ⟨(sk.comp sv2).comp
              (StepRel.addContainer2 o st2 (.RocDict keyId valId) keyId valId rfl rfl
                ?_ ?_ (fun hh => RocType.noConfusion hh) (fun u hu => RocType.noConfusion hu)), ?_⟩
            · rw [hknorm]
              exact fun hh => TypeId.noConfusion hh
            · rw [hvnorm]
              exact fun hh => TypeId.noConfusion hh
            · exact ⟨st2.types.entries.length, rfl,
                by simp [Types.depends_entries, Types.add_entries]⟩
      · -- Set
        split at h
        · cases h
        next elemId st1 helem =>
          cases h
          obtain ⟨se, ie⟩ := ihH _ _ _ _ _ hnm helem
          have ie2 : IdIn st1 elemId := ie
          obtain ⟨ne, henorm, _⟩ := ie2
          refine ⟨se.comp
            (StepRel.addContainer1 o st1 (.RocSet elemId) elemId rfl rfl
              ?_ (fun hh => RocType.noConfusion hh) (fun u hu => RocType.noConfusion hu)), ?_⟩
          · rw [henorm]
            exact fun hh => TypeId.noConfusion hh
          · exact ⟨st1.types.entries.length, rfl,
              by simp [Types.depends_entries, Types.add_entries]⟩
      · -- List
        split at h
        · cases h
        next elemId st1 helem =>
          cases h
          obtain ⟨se, ie⟩ := ihH _ _ _ _ _ hnm helem
          have ie2 : IdIn st1 elemId := ie
          obtain ⟨ne, henorm, _⟩ := ie2
          refine ⟨se.comp
            (StepRel.addContainer1 o st1 (.RocList elemId) elemId rfl rfl
              ?_ (fun hh => RocType.noConfusion hh) (fun u hu => RocType.noConfusion hu)), ?_⟩
          · rw [henorm]
            exact fun hh => TypeId.noConfusion hh
          · exact ⟨st1.types.entries.length, rfl,
              by simp [Types.depends_entries, Types.add_entries]⟩
    · -- add_struct
      intro name fields st r hname h
      simp only [add_struct] at h
      split at h
      · -- empty record
        cases h
        refine PostId.addEntryOk _ _ _ ?_ (by simp [RocType.childIds]) rfl
          (fun u hu => nomatch hu)
        intro hnp heq
        rw [show placeholderType = RocType.Struct placeholderName [] from rfl] at heq
        injection heq with h1 _
        exact hname hnp h1
      · -- single field
        split at h
        · cases h
        next content st1 hct =>
          cases h
          obtain ⟨s1, i1⟩ := ihT _ _ _ hct
          have i1b : IdIn st1 content := i1
          obtain ⟨nc, hcn, _⟩ := i1b
          refine ⟨s1.comp (StepRel.addEntry o st1 _ (fun _ hh => nomatch hh) ?_ rfl
            (fun u hu => nomatch hu)), st1.types.entries.length, rfl,
            by simp [Types.add_entries]⟩
          rw [show (RocType.TransparentWrapper name content).childIds = [content] from rfl, hcn]
          simp
      · -- multi field
        rename_i p1 p2 tl
        split at h
        · cases h
        next sortables hlk =>
          split at h
          · cases h
          next outFields st1 hsf =>
            cases h
            obtain ⟨s1, hids, hmap⟩ := ihSF _ _ _ hsf
            refine ⟨s1.comp (StepRel.addEntry o st1 _ ?_ ?_ rfl
              (fun u hu => nomatch hu)), st1.types.entries.length, rfl,
              by simp [Types.add_entries]⟩
            · intro hnp heq
              rw [show placeholderType = RocType.Struct placeholderName [] from rfl] at heq
              injection heq with h1 h2
              rw [h2] at hmap
              have h0 : (sortables.insertionSort (fieldLE o)).map (fun x => x.1) = [] := by
                simpa using hmap.symm
              have hsorted_nil : sortables.insertionSort (fieldLE o) = [] :=
                List.map_eq_nil_iff.1 h0
              have hsortables_nil : sortables = [] := by
                have hp := List.perm_insertionSort (fieldLE o) sortables
                rw [hsorted_nil] at hp
                exact (hp.symm).eq_nil
              have hfl := lookup_layouts_fst hlk
              rw [hsortables_nil] at hfl
              simp at hfl
              exact p2 hfl
            · intro hmem
              rw [show (RocType.Struct name outFields).childIds
                  = outFields.map Prod.snd from rfl] at hmem
              obtain ⟨p, hp, hps⟩ := List.mem_map.1 hmem
              obtain ⟨np, hnp2, _⟩ := hids p hp
              rw [hnp2] at hps
              exact nomatch hps
    · -- add_struct_fields
      intro sorted st out h
      simp only [add_struct_fields] at h
      split at h
      · cases h
        exact ⟨stepRel_refl o st, fun p hp => absurd hp (List.not_mem_nil p), rfl⟩
      next label fieldVar fieldLayout rest =>
        split at h
        · cases h
        next tid st1 hfirst =>
          split at h
          · cases h
          next outs st2 hrest =>
            cases h
            obtain ⟨s1, i1⟩ := ihH _ _ _ _ _ (fun _ _ hs => Option.noConfusion hs) hfirst
            obtain ⟨s2, hids2, hmap2⟩ := ihSF _ _ _ hrest
            refine ⟨s1.comp s2, ?_, ?_⟩
            · intro p hp
              rcases List.mem_cons.1 hp with hh | hh
              · subst hh
                exact IdIn.mono i1 s2
              · exact hids2 p hh
            · simpa using hmap2
    · -- add_tag_union
      intro nm tags v st r hnm hnodup hphtags h
      simp only [add_tag_union] at h
      split at h
      · cases h
      next nts hmat =>
        split at h
        · -- single-tag union
          rename_i tagName payloadVars
          have htag_ne : NoPhNames o → single_tag_name nm tagName ≠ placeholderName := by
            intro hnp
            cases nm with
            | some sym => exact hnm hnp sym rfl
            | none =>
              exact hphtags hnp _ hmat (tagName, payloadVars) (List.mem_singleton.2 rfl)
          split at h
          · -- no payload
            cases h
            refine PostId.addEntryOk _ _ _ ?_ (by simp [RocType.childIds]) rfl
              (fun u hu => nomatch hu)
            intro hnp heq
            rw [show placeholderType = RocType.Struct placeholderName [] from rfl] at heq
            injection heq with h1 _
            exact htag_ne hnp h1
          · -- one payload
            split at h
            · cases h
            next content st1 hct =>
              cases h
              obtain ⟨s1, i1⟩ := ihT _ _ _ hct
              have i1b : IdIn st1 content := i1
              obtain ⟨nc, hcn, _⟩ := i1b
              refine ⟨s1.comp (StepRel.addEntry o st1 _ (fun _ hh => nomatch hh) ?_ rfl
                (fun u hu => nomatch hu)), st1.types.entries.length, rfl,
                by simp [Types.add_entries]⟩
              rw [show (RocType.TransparentWrapper (single_tag_name nm tagName) content).childIds
                  = [content] from rfl, hcn]
              simp
          · -- two or more payloads: the record path
            exact ihS _ _ _ _ htag_ne h
        · -- multi-tag union
          split at h
          · cases h
          next layout hlay =>
            split at h
            · cases h
            next classified st2 hcls =>
              split at h
              · cases h
              next typ htyp =>
                cases h
                obtain ⟨scl, hnames, hclsids⟩ := ihCTs _ _ _ _ _ hcls
                obtain ⟨hcontTyp, hphTyp, hchTyp, hnamesTyp, hshapeTyp⟩ := tag_union_type_ok htyp
                have hlen1 : st.types.entries.length + 1
                    ≤ st2.types.entries.length := by
                  have := scl.len
                  simpa [Types.add_entries] using this
                have hNlt : st.types.entries.length < st2.types.entries.length :=
                  Nat.lt_of_lt_of_le (Nat.lt_succ_self _) hlen1
                have hfinal_entries :
                    ({ st2 with types := st2.types.replace (st.types.add placeholderType).2 typ } : St).types.entries
                    = st2.types.entries.set st.types.entries.length typ := rfl
                refine ⟨⟨?_, ?_, ?_, ?_, ?_, ?_⟩, st.types.entries.length, rfl, ?_⟩
                · -- length
                  rw [hfinal_entries]
                  simp only [List.length_set]
                  exact Nat.le_trans (Nat.le_succ _) hlen1
                · -- pending only grows
                  intro p hp
                  exact scl.pending p hp
                · -- deps only grow
                  intro p hp
                  rw [show ({ st2 with types := st2.types.replace (st.types.add placeholderType).2 typ } : St).types.deps
                      = st2.types.deps from Types.replace_deps _ _ _]
                  exact scl.deps p (by simpa [Types.add_deps_eq] using hp)
                · -- known untouched
                  exact scl.known
                · -- no placeholder introduced
                  intro hnp n hget
                  rw [hfinal_entries] at hget
                  by_cases hn : n = st.types.entries.length
                  · subst hn
                    rw [List.get?_eq_getElem?, List.getElem?_set_self',
                      List.getElem?_eq_getElem hNlt] at hget
                    simp at hget
                    exact absurd hget hphTyp
                  · rw [List.get?_eq_getElem?, List.getElem?_set_ne (fun hh => hn hh.symm),
                      ← List.get?_eq_getElem?] at hget
                    have h1 := scl.ph hnp n hget
                    rw [show ({ st with types := (st.types.add placeholderType).1 } : St).types.entries
                        = st.types.entries ++ [placeholderType] from rfl,
                      get?_append_one] at h1
                    split at h1
                    next hh => exact absurd hh hn
                    next => exact h1
                · -- invariant preservation
                  intro hInv
                  have hInv1 : Inv o { st with types := (st.types.add placeholderType).1 } :=
                    Inv.addEntryKeeps o st placeholderType (by simp [placeholderType, RocType.childIds])
                      rfl (fun u hu => nomatch hu) hInv
                  have hInv2 := scl.inv hInv1
                  obtain ⟨hp2, hd2, hs2⟩ := hInv2
                  refine ⟨?_, ?_, ?_⟩
                  · intro n t hget hmem
                    rw [hfinal_entries] at hget
                    by_cases hn : n = st.types.entries.length
                    · subst hn
                      rw [List.get?_eq_getElem?, List.getElem?_set_self',
                        List.getElem?_eq_getElem hNlt] at hget
                      simp at hget
                      subst hget
                      obtain ⟨p, hpc, hps⟩ := List.mem_filterMap.1 (hchTyp _ hmem)
                      obtain ⟨np, hnp2, _⟩ := hclsids p hpc _ hps
                      exact nomatch hnp2
                    · rw [List.get?_eq_getElem?, List.getElem?_set_ne (fun hh => hn hh.symm),
                        ← List.get?_eq_getElem?] at hget
                      exact hp2 n t hget hmem
                  · intro n t hget c hc
                    rw [hfinal_entries] at hget
                    rw [show ({ st2 with types := st2.types.replace (st.types.add placeholderType).2 typ } : St).types.deps
                        = st2.types.deps from Types.replace_deps _ _ _]
                    by_cases hn : n = st.types.entries.length
                    · subst hn
                      rw [List.get?_eq_getElem?, List.getElem?_set_self',
                        List.getElem?_eq_getElem hNlt] at hget
                      simp at hget
                      subst hget
                      rw [hcontTyp] at hc
                      cases hc
                    · rw [List.get?_eq_getElem?, List.getElem?_set_ne (fun hh => hn hh.symm),
                        ← List.get?_eq_getElem?] at hget
                      exact hd2 n t hget c hc
                  · intro hwf n u hget
                    rw [hfinal_entries] at hget
                    by_cases hn : n = st.types.entries.length
                    · subst hn
                      rw [List.get?_eq_getElem?, List.getElem?_set_self',
                        List.getElem?_eq_getElem hNlt] at hget
                      simp at hget
                      rcases hnamesTyp u hget with hnu | hnu
                      · rw [hnu, hnames]
                        exact pairwise_lt_sorted_names nts (hnodup hwf nts hmat)
                      · rw [hnu]
                        exact List.Pairwise.nil
                    · rw [List.get?_eq_getElem?, List.getElem?_set_ne (fun hh => hn hh.symm),
                        ← List.get?_eq_getElem?] at hget
                      exact hs2 hwf n u hget
                · -- returned id in range
                  rw [hfinal_entries]
                  simp only [List.length_set]
                  exact hNlt
    · -- classify_tag
      intro lay un tn pv st res h
      simp only [classify_tag] at h
      split at h
      · cases h
      next n hn =>
        split at h
        · cases h
          exact ⟨stepRel_refl o st, rfl, fun pid hp => nomatch hp⟩
        · split at h
          · -- inline single payload
            split at h
            · cases h
            next payloadVar restVars =>
              split at h
              · cases h
              next payloadLayout hpl =>
                split at h
                · cases h
                next payloadId st1 hadd =>
                  cases h
                  obtain ⟨s1, i1⟩ := ihH _ _ _ _ _ (fun _ _ hs => Option.noConfusion hs) hadd
                  exact ⟨s1, rfl, fun pid hp => by cases hp; exact i1⟩
          · -- synthesized struct payload
            split at h
            · cases h
            next structId st1 hstr =>
              cases h
              obtain ⟨s1, i1⟩ := ihS _ _ _ _ (fun _ => underscore_ne_placeholder un tn) hstr
              exact ⟨s1, rfl, fun pid hp => by cases hp; exact i1⟩
    · -- classify_tags
      intro lay un tags st out h
      simp only [classify_tags] at h
      split at h
      · cases h
        exact ⟨stepRel_refl o st, rfl, fun p hp => absurd hp (List.not_mem_nil p)⟩
      next tagName payloadVars rest =>
        split at h
        · cases h
        next r1 st1 hfirst =>
          split at h
          · cases h
          next rs st2 hrest =>
            cases h
            obtain ⟨s1, hname1, hid1⟩ := ihCT _ _ _ _ _ _ hfirst
            obtain ⟨s2, hnames2, hids2⟩ := ihCTs _ _ _ _ _ hrest
            have hname1b : r1.1 = tagName := hname1
            have hnames2b : rs.map Prod.fst = rest.map Prod.fst := hnames2
            refine ⟨s1.comp s2, ?_, ?_⟩
            · simp [hname1b, hnames2b]
            · intro p hp pid hpid
              rcases List.mem_cons.1 hp with hh | hh
              · subst hh
                exact IdIn.mono (hid1 pid hpid) s2
              · exact hids2 p hh pid hpid

/-- The walk over entry variables is a step. -/
theorem lower_all_step (o : Oracle) (fuel : Nat) :
    ∀ vars st st1, lower_all o fuel vars st = .ok st1 → StepRel o st st1 := by
  intro vars
  induction vars with
  | nil =>
    intro st st1 h
    simp only [lower_all] at h
    cases h
    exact stepRel_refl o _
  | cons v vs ih =>
    intro st st1 h
    simp only [lower_all] at h
    split at h
    · cases h
    next tid stMid hadd =>
      exact (((step_master o fuel).1 _ _ _ hadd).1).comp (ih _ _ h)

/-- With an empty known-map, the resolution pass succeeds only when nothing
is pending, and then returns the registry unchanged. -/
theorem resolve_empty_known {pending : List (TypeId × Variable)} {types types2 : Types}
    (h : resolve_pending_recursive_types pending [] types = .ok types2) :
    pending = [] ∧ types2 = types := by
  cases pending with
  | nil =>
    simp only [resolve_pending_recursive_types] at h
    cases h
    exact ⟨rfl, rfl⟩
  | cons p rest =>
    obtain ⟨tid, var⟩ := p
    simp only [resolve_pending_recursive_types, List.lookup] at h
    cases h

/-- After a successful `vars_to_types` run: the walk succeeded, nothing was
left pending, the known-recursive map is empty, the returned registry is the
walk's registry, and the state invariants hold. -/
theorem vars_to_types_ok {o : Oracle} {fuel : Nat} {vars : List Variable} {tys : Types}
    (h : vars_to_types o fuel vars = .ok tys) :
    ∃ st1, lower_all o fuel vars initSt = .ok st1 ∧ st1.pending = [] ∧ st1.known = [] ∧
      tys = st1.types ∧ Inv o st1 := by
  unfold vars_to_types at h
  split at h
  · cases h
  next st1 hlow =>
    have hstep := lower_all_step o fuel vars initSt st1 hlow
    have hknown : st1.known = [] := hstep.known
    rw [hknown] at h
    obtain ⟨hpend, htys⟩ := resolve_empty_known h
    exact ⟨st1, hlow, hpend, hknown, htys, hstep.inv (Inv.initial o)⟩

/-- The entry just appended by `Types.add` is what `get` returns for the
fresh id. -/
theorem get_add_last (st : St) (t : RocType) :
    ({ st with types := (st.types.add t).1 } : St).types.get (st.types.add t).2 = some t := by
  show (st.types.entries ++ [t]).get? st.types.entries.length = some t
  rw [get?_append_one]
  simp

/-- Shape of the entry returned by `add_struct`: empty struct, transparent
wrapper, or a struct whose labels are a permutation of the requested
labels. -/
theorem add_struct_shape {o : Oracle} {fuel : Nat} {name : String}
    {fields : List (String × Variable)} {st : St} {r : TypeId × St}
    (h : add_struct o (fuel+1) name fields st = .ok r) :
    (fields = [] ∧ r.2.types.get r.1 = some (.Struct name [])) ∨
    (fields.length = 1 ∧ ∃ c, r.2.types.get r.1 = some (.TransparentWrapper name c)) ∨
    (2 ≤ fields.length ∧ ∃ fs, r.2.types.get r.1 = some (.Struct name fs) ∧
      List.Perm (fs.map Prod.fst) (fields.map Prod.fst)) := by
  simp only [add_struct] at h
  split at h
  · cases h
    exact Or.inl ⟨rfl, get_add_last st _⟩
  · split at h
    · cases h
    next content st1 hct =>
      cases h
      exact Or.inr (Or.inl ⟨rfl, content, get_add_last st1 _⟩)
  next p1 p2 tl =>
    split at h
    · cases h
    next sortables hlk =>
      split at h
      · cases h
      next outFields st1 hsf =>
        cases h
        obtain ⟨_, _, hmap⟩ := (step_master o fuel).2.2.2.2.1 _ _ _ hsf
        refine Or.inr (Or.inr ⟨?_, outFields, get_add_last st1 _, ?_⟩)
        · -- `fields` does not match `[]` or `[x]`, so it has two or more entries
          cases fields with
          | nil => exact absurd rfl p2
          | cons q1 qs =>
            cases qs with
            | nil => exact absurd rfl (tl q1.1 q1.2)
            | cons q2 qs2 => simp
        · have hmap2 : outFields.map Prod.fst
              = (sortables.insertionSort (fieldLE o)).map Prod.fst := hmap
          rw [hmap2]
          have hperm : List.Perm ((sortables.insertionSort (fieldLE o)).map Prod.fst)
              (sortables.map Prod.fst) :=
            (List.perm_insertionSort (fieldLE o) sortables).map Prod.fst
          have hfl : sortables.map Prod.fst = fields.map Prod.fst := lookup_layouts_fst hlk
          rw [hfl] at hperm
          exact hperm

/-- A tag whose payload has no effective fields is classified as
payload-free, leaving the state untouched. -/
theorem classify_tag_empty (o : Oracle) (fuel : Nat) (lay : Layout) (un tn : String)
    (pv : List Variable) (st : St) (h0 : struct_fields_needed o pv = .ok 0) :
    classify_tag o (fuel+1) lay un tn pv st = .ok ((tn, none), st) := by
  simp [classify_tag, h0]

/-- A successfully classified tag has payload `none` exactly when its
payload has no effective fields. -/
theorem classify_tag_none_iff {o : Oracle} {fuel : Nat} {lay : Layout} {un tn : String}
    {pv : List Variable} {st : St} {res : (String × Option TypeId) × St}
    (h : classify_tag o fuel lay un tn pv st = .ok res) :
    (res.1.2 = none ↔ struct_fields_needed o pv = .ok 0) := by
  cases fuel with
  | zero =>
    simp only [classify_tag] at h
    cases h
  | succ fuel =>
    simp only [classify_tag] at h
    split at h
    · cases h
    next n hn =>
      split at h
      next hz =>
        cases h
        simp at hz
        subst hz
        exact ⟨fun _ => hn, fun _ => rfl⟩
      next hz =>
        have hnz : n ≠ 0 := by simpa using hz
        have hres : ∃ pid, res.1.2 = some pid := by
          split at h
          · split at h
            · cases h
            · split at h
              · cases h
              · split at h
                · cases h
                next =>
                  cases h
                  exact ⟨_, rfl⟩
          · split at h
            · cases h
            next =>
              cases h
              exact ⟨_, rfl⟩
        obtain ⟨pid, hpid⟩ := hres
        rw [hpid]
        constructor
        · intro hc
          cases hc
        · intro hc
          rw [hn] at hc
          exact absurd (Except.ok.inj hc) hnz

/-- Unfolding of the classification of exactly two sorted tags: two
successive `classify_tag` calls at successive fuels. -/
theorem classify_tags_pair {o : Oracle} {fuel : Nat} {lay : Layout} {un : String}
    {a b : String × List Variable} {st : St} {out : List (String × Option TypeId) × St}
    (h : classify_tags o fuel lay un [a, b] st = .ok out) :
    ∃ f1 f2 ra stm rb, classify_tag o f1 lay un a.1 a.2 st = .ok (ra, stm) ∧
      classify_tag o f2 lay un b.1 b.2 stm = .ok (rb, out.2) ∧ out.1 = [ra, rb] := by
  cases fuel with
  | zero =>
    simp only [classify_tags] at h
    cases h
  | succ f =>
    simp only [classify_tags] at h
    split at h
    · cases h
    next r1 st1 h1 =>
      split at h
      · cases h
      next rs st2 h2 =>
        cases h
        cases f with
        | zero =>
          simp only [classify_tags] at h2
          cases h2
        | succ f2 =>
          simp only [classify_tags] at h2
          split at h2
          · cases h2
          next rb1 stb hb =>
            split at h2
            · cases h2
            next rs2 st3 hrest =>
              cases h2
              cases f2 with
              | zero =>
                simp only [classify_tags] at hrest
                cases hrest
              | succ f3 =>
                simp only [classify_tags] at hrest
                cases hrest
                exact ⟨_, _, r1, st1, rb1, h1, hb, rfl⟩

/-- A kept record field comes from a `Required` or `Demanded` field with the
same label. -/
theorem mem_keep_field {fields : List (String × RecordField)} {l : String} {w : Variable}
    (h : (l, w) ∈ fields.filterMap keep_field) :
    ∃ rf, (l, rf) ∈ fields ∧ (rf = RecordField.Required w ∨ rf = RecordField.Demanded w) := by
  obtain ⟨a, ha, hk⟩ := List.mem_filterMap.1 h
  obtain ⟨l2, rf⟩ := a
  cases rf with
  | Required v2 =>
    simp only [keep_field] at hk
    injection hk with hk2
    injection hk2 with hl hv
    subst hl
    subst hv
    exact ⟨RecordField.Required _, ha, Or.inl rfl⟩
  | Demanded v2 =>
    simp only [keep_field] at hk
    injection hk with hk2
    injection hk2 with hl hv
    subst hl
    subst hv
    exact ⟨RecordField.Demanded _, ha, Or.inr rfl⟩
  | Optional v2 =>
    simp only [keep_field] at hk
    cases hk

/-- The synthesized positional payload labels. -/
theorem payload_fields_fst (pvars : List Variable) :
    (payload_fields pvars).map Prod.fst
      = (List.range pvars.length).map (fun i => "f" ++ toString i) := by
  unfold payload_fields
  rw [List.map_map]
  have h1 : (Prod.fst ∘ fun p : Nat × Variable => ("f" ++ toString p.1, p.2))
      = (fun i => "f" ++ toString i) ∘ Prod.fst := rfl
  rw [h1, ← List.map_map, List.enum_map_fst]

theorem payload_fields_length (pvars : List Variable) :
    (payload_fields pvars).length = pvars.length := by
  simp [payload_fields]

/-- A payload with at least one effective field is nonempty. -/
theorem struct_fields_needed_pos {o : Oracle} {pv : List Variable} {k : Nat}
    (h : struct_fields_needed o pv = .ok (k+1)) : pv ≠ [] := by
  intro hc
  subst hc
  simp [struct_fields_needed] at h

/-- C1: claimed — for every multi-constructor tag union lowered by
`add_tag_union`, the union's variable is registered in
`known_recursive_types` before the children are lowered, so every recursive
pointer resolves to the union's own `TypeId`.  The code never inserts into
`known_recursive_types`: lowering leaves the known map exactly as it was
(second conjunct), so on the concrete recursive list
`ConsList : [Cons I64 ConsList, Nil]` the whole run aborts inside
`resolve_pending_recursive_types` with the `unreachable!` for a pending
variable that has no known recursive `TypeId` (first conjunct). -/
theorem claim_C1_known_recursive_never_registered :
    vars_to_types consListOracle 40 [0] = .error .noKnownRecursive ∧
    (∀ o fuel vars st st1, lower_all o fuel vars st = .ok st1 → st1.known = st.known) :=
  ⟨rfl, fun o fuel vars st st1 h => (lower_all_step o fuel vars st st1 h).known⟩

/-- C9: for a variable whose content is an alias with a builtin symbol,
lowering succeeds only when the given layout is a `Builtin` layout; any
other layout reaches the `unreachable!` branch rather than recursing into
the aliased variable. -/
theorem claim_C9_builtin_alias_layout {o : Oracle} {lay : Layout} {v : Variable}
    {nm : Option Symbol} {st : St} {sym : Symbol} {rv : Variable}
    (hcont : o.content v = .Alias sym rv) (hsym : sym.builtin = true) :
    (∀ fuel r, add_type_help o fuel lay v nm st = .ok r → ∃ b, lay = .Builtin b) ∧
    (∀ fuel, (∀ b, lay ≠ .Builtin b) →
      add_type_help o (fuel+1) lay v nm st = .error .unreachableHit) := by
  constructor
  · intro fuel r h
    cases fuel with
    | zero =>
      simp only [add_type_help] at h
      cases h
    | succ fuel =>
      simp only [add_type_help] at h
      rw [hcont] at h
      simp only [Symbol.is_builtin, hsym, if_true] at h
      cases lay with
      | Builtin b => exact ⟨b, rfl⟩
      | Struct => cases h
      | Union u => cases h
      | Boxed => cases h
      | LambdaSet => cases h
      | RecursivePointer => cases h
  · intro fuel hlay
    cases lay with
    | Builtin b => exact absurd rfl (hlay b)
    | Struct => simp only [add_type_help, hcont, Symbol.is_builtin, hsym, if_true]
    | Union u => simp only [add_type_help, hcont, Symbol.is_builtin, hsym, if_true]
    | Boxed => simp only [add_type_help, hcont, Symbol.is_builtin, hsym, if_true]
    | LambdaSet => simp only [add_type_help, hcont, Symbol.is_builtin, hsym, if_true]
    | RecursivePointer => simp only [add_type_help, hcont, Symbol.is_builtin, hsym, if_true]

/-- Witness for C9 at a concrete input: the builtin-symbol alias with a
`Struct` layout hits the `unreachable!` branch, and no successful lowering
of it exists at that layout. -/
theorem claim_C9_witness :
    builtinAliasOracle.content 0 = .Alias ⟨"Num.U8", true⟩ 1 ∧
    (⟨"Num.U8", true⟩ : Symbol).builtin = true ∧
    add_type_help builtinAliasOracle 5 Layout.Struct 0 none initSt
      = .error .unreachableHit :=
  ⟨rfl, rfl,
    (@claim_C9_builtin_alias_layout builtinAliasOracle .Struct 0 none initSt
      ⟨"Num.U8", true⟩ 1 rfl rfl).2 4
      (fun b h => Layout.noConfusion h)⟩

/-- C5: a single-constructor tag union never becomes a `TagUnion` value:
with no payload it is an empty struct, with one payload variable a
transparent wrapper whose content is the `TypeId` `add_type` returns for
that payload variable, and with two or more payload variables a generated
record with positional `f0, f1, …` fields lowered via the record path
(`add_struct`). -/
theorem claim_C5_single_tag_collapse {o : Oracle} {fuel : Nat} {nm : Option Symbol}
    {tagsIn : List (TagName × List Variable)} {v : Variable} {st : St} {r : TypeId × St}
    {tn : String} {pvars : List Variable}
    (hmat : materialize_tags tagsIn = .ok [(tn, pvars)])
    (h : add_tag_union o (fuel+1) nm tagsIn v st = .ok r) :
    (∀ u, r.2.types.get r.1 ≠ some (RocType.TagUnion u)) ∧
    (pvars = [] → r.2.types.get r.1 = some (.Struct (single_tag_name nm tn) [])) ∧
    (∀ pv0, pvars = [pv0] →
      ∃ c st1, add_type o fuel pv0 st = .ok (c, st1) ∧
        r.2.types.get r.1 = some (.TransparentWrapper (single_tag_name nm tn) c)) ∧
    (2 ≤ pvars.length →
      add_struct o fuel (single_tag_name nm tn) (payload_fields pvars) st = .ok r ∧
      ∃ fs, r.2.types.get r.1 = some (.Struct (single_tag_name nm tn) fs) ∧
        List.Perm (fs.map Prod.fst) ((payload_fields pvars).map Prod.fst)) := by
  simp only [add_tag_union, hmat] at h
  split at h
  · -- no payload
    cases h
    have hget := get_add_last st (RocType.Struct (single_tag_name nm tn) [])
    refine ⟨?_, fun _ => hget, ?_, ?_⟩
    · intro u hu
      rw [hget] at hu
      cases hu
    · intro pv0 h1
      simp at h1
    · intro h1
      simp at h1
  · -- one payload variable
    rename_i pvv
    split at h
    · cases h
    next content st1 hct =>
      cases h
      have hget := get_add_last st1 (RocType.TransparentWrapper (single_tag_name nm tn) content)
      refine ⟨?_, ?_, ?_, ?_⟩
      · intro u hu
        rw [hget] at hu
        cases hu
      · intro h1
        cases h1
      · intro pv0 h1
        injection h1 with h2 h3
        subst h2
        exact ⟨content, st1, hct, hget⟩
      · intro h1
        simp at h1
  next pv0 pv1 pvrest =>
    -- two or more payload variables: the record path
    have hlen : 2 ≤ pvars.length := by
      cases pvars with
      | nil => exact absurd rfl pv1
      | cons q1 qs =>
        cases qs with
        | nil => exact absurd rfl (pvrest q1)
        | cons q2 qs2 => simp
    cases fuel with
    | zero =>
      simp only [add_struct] at h
      cases h
    | succ f =>
      rcases add_struct_shape h with ⟨hnil, _⟩ | ⟨h1, _⟩ | ⟨_, fs, hget, hperm⟩
      · have := congrArg List.length hnil
        rw [payload_fields_length pvars, List.length_nil] at this
        omega
      · rw [payload_fields_length pvars] at h1
        omega
      · refine ⟨?_, ?_, ?_, fun _ => ⟨h, fs, hget, hperm⟩⟩
        · intro u hu
          rw [hget] at hu
          cases hu
        · intro h1
          subst h1
          simp at hlen
        · intro pvq h1
          subst h1
          exact absurd rfl (pvrest pvq)

/-- C8: a record field whose every occurrence is `Optional` does not appear
in the emitted struct or wrapper: only `Required` and `Demanded` fields are
kept. -/
theorem claim_C8_optional_fields_dropped {o : Oracle} {fuel : Nat} {lay : Layout}
    {v : Variable} {nm : Option Symbol} {st : St} {r : TypeId × St}
    {fields : List (String × RecordField)} {ext : Variable} {lbl : String}
    (hcont : o.content v = .Structure (.Record fields ext))
    (hopt : ∀ rf, (lbl, rf) ∈ fields → ∃ w, rf = RecordField.Optional w)
    (h : add_type_help o (fuel+1) lay v nm st = .ok r) :
    ∀ t, r.2.types.get r.1 = some t → lbl ∉ labelsOf t := by
  simp only [add_type_help, hcont] at h
  cases fuel with
  | zero =>
    simp only [add_struct] at h
    cases h
  | succ f =>
    intro t hget hmem
    rcases add_struct_shape h with ⟨_, hg⟩ | ⟨_, c, hg⟩ | ⟨_, fs, hg, hperm⟩ <;>
      rw [hg] at hget <;> cases hget
    · simp [labelsOf] at hmem
    · simp [labelsOf] at hmem
    · simp only [labelsOf] at hmem
      have hmem2 : lbl ∈ (fields.filterMap keep_field).map Prod.fst := hperm.mem_iff.1 hmem
      obtain ⟨p, hp, hpl⟩ := List.mem_map.1 hmem2
      obtain ⟨l2, w⟩ := p
      simp only at hpl
      subst hpl
      obtain ⟨rf, hrf, hcase⟩ := mem_keep_field hp
      obtain ⟨w2, hw2⟩ := hopt rf hrf
      rcases hcase with h1 | h1 <;> rw [hw2] at h1 <;> cases h1

/-- C10: for a multi-constructor union on which `add_tag_union` returns
normally, the reserved placeholder slot holds the final union type (`Bool`
in the degenerate case, otherwise a `TagUnion`) when the call returns, and
the call introduces no registry entry equal to the placeholder value. -/
theorem claim_C10_placeholder_replaced {o : Oracle} {fuel : Nat} {nm : Option Symbol}
    {tagsIn : List (TagName × List Variable)} {v : Variable} {st : St} {r : TypeId × St}
    {nts : List (String × List Variable)}
    (hmat : materialize_tags tagsIn = .ok nts)
    (hlen : 2 ≤ nts.length)
    (h : add_tag_union o (fuel+1) nm tagsIn v st = .ok r) :
    (∃ typ, r.2.types.get r.1 = some typ ∧ typ ≠ placeholderType ∧
      (typ = RocType.Bool ∨ ∃ u, typ = RocType.TagUnion u)) ∧
    (NoPhNames o → ∀ n, r.2.types.entries.get? n = some placeholderType →
      st.types.entries.get? n = some placeholderType) := by
  simp only [add_tag_union, hmat] at h
  split at h
  · rename_i tagName payloadVars
    simp at hlen
  · split at h
    · cases h
    next layout hlay =>
      split at h
      · cases h
      next classified st2 hcls =>
        split at h
        · cases h
        next typ htyp =>
          cases h
          obtain ⟨scl, _, hclsids⟩ := (step_master o fuel).2.2.2.2.2.2.2 _ _ _ _ _ hcls
          obtain ⟨_, hphTyp, _, _, hshapeTyp⟩ := tag_union_type_ok htyp
          have hlen1 : st.types.entries.length + 1 ≤ st2.types.entries.length := by
            have := scl.len
            simpa [Types.add_entries] using this
          have hNlt : st.types.entries.length < st2.types.entries.length :=
            Nat.lt_of_lt_of_le (Nat.lt_succ_self _) hlen1
          constructor
          · refine ⟨typ, ?_, hphTyp, hshapeTyp⟩
            show (st2.types.entries.set st.types.entries.length typ).get?
              st.types.entries.length = some typ
            rw [List.get?_eq_getElem?, List.getElem?_set_self',
              List.getElem?_eq_getElem hNlt]
            rfl
          · intro hnp n hget
            rw [show ((⟨st2.pending, st2.known,
                st2.types.replace (st.types.add placeholderType).2 typ⟩ : St)).types.entries
                = st2.types.entries.set st.types.entries.length typ from rfl] at hget
            by_cases hn : n = st.types.entries.length
            · subst hn
              rw [List.get?_eq_getElem?, List.getElem?_set_self',
                List.getElem?_eq_getElem hNlt] at hget
              simp at hget
              exact absurd hget hphTyp
            · rw [List.get?_eq_getElem?, List.getElem?_set_ne (fun hh => hn hh.symm),
                ← List.get?_eq_getElem?] at hget
              have h1 := scl.ph hnp n hget
              rw [show ({ st with types := (st.types.add placeholderType).1 } : St).types.entries
                  = st.types.entries ++ [placeholderType] from rfl, get?_append_one] at h1
              split at h1
              next hh => exact absurd hh hn
              next => exact h1

/-- C2: on every normal return of `vars_to_types`, no registry entry
mentions the `PENDING` sentinel; during lowering (before the resolution
pass) `PENDING` only ever occurs as the content of a `RecursivePointer`. -/
theorem claim_C2_no_pending_leak {o : Oracle} {fuel : Nat} {vars : List Variable}
    {tys : Types} (h : vars_to_types o fuel vars = .ok tys) :
    (∀ t ∈ tys.entries, TypeId.PENDING ∉ t.childIds) ∧
    (∀ st1, lower_all o fuel vars initSt = .ok st1 →
      ∀ t ∈ st1.types.entries, TypeId.PENDING ∈ t.childIds →
        ∃ nm, t = RocType.RecursivePointer nm TypeId.PENDING) := by
  obtain ⟨st1, hlow, hpend, hknown, htys, hInv⟩ := vars_to_types_ok h
  constructor
  · intro t ht hmem
    subst htys
    obtain ⟨n, hn⟩ := List.get?_of_mem ht
    obtain ⟨_, v, hv⟩ := hInv.1 n t hn hmem
    rw [hpend] at hv
    cases hv
  · intro st2 hlow2 t ht hmem
    rw [hlow2] at hlow
    cases hlow
    obtain ⟨n, hn⟩ := List.get?_of_mem ht
    exact (hInv.1 n t hn hmem).1

/-- Witness for C2: a concrete run returns normally and its registry is free
of `PENDING`. -/
theorem claim_C2_witness :
    ∃ tys, vars_to_types oneFieldRecordOracle 10 [0] = .ok tys ∧
      ∀ t ∈ tys.entries, TypeId.PENDING ∉ t.childIds := by
  have hrun : vars_to_types oneFieldRecordOracle 10 [0]
      = .ok (Types.mk [.U8, .TransparentWrapper "R" (.norm 0)] []) := rfl
  exact ⟨_, hrun, (claim_C2_no_pending_leak hrun).1⟩

/-- C3 as stated is false: lowering `{ a : U8 }` emits a
`TransparentWrapper` (a composite mentioning a child `TypeId`) but records
no `depends` edge at all — only the container builtins record edges. -/
theorem claim_C3_counterexample :
    vars_to_types oneFieldRecordOracle 10 [0]
      = .ok (Types.mk [.U8, .TransparentWrapper "R" (.norm 0)] []) ∧
    ¬ depClosed (Types.mk [.U8, .TransparentWrapper "R" (.norm 0)] []) :=
  ⟨rfl, by unfold depClosed; decide⟩

/-- C3, amended: only the container builtins (`List`, `Set`, `Dict`) record
their children in `depends`; on every normal return of `vars_to_types`,
every container entry has all of its children recorded as `depends`
edges. -/
theorem claim_C3_container_children_in_depends {o : Oracle} {fuel : Nat}
    {vars : List Variable} {tys : Types} (h : vars_to_types o fuel vars = .ok tys) :
    ∀ n (hn : n < tys.entries.length),
      ∀ c ∈ (tys.entries.get ⟨n, hn⟩).containerChildIds, (TypeId.norm n, c) ∈ tys.deps := by
  obtain ⟨st1, hlow, hpend, hknown, htys, hInv⟩ := vars_to_types_ok h
  subst htys
  intro n hn c hc
  exact hInv.2.1 n _ (List.get?_eq_get hn) c hc

/-- Witness for the amended C3: lowering `List U8` records the element
dependency edge, and every container entry of the run is dependency
closed. -/
theorem claim_C3_witness :
    ∃ tys, vars_to_types listU8Oracle 10 [0] = .ok tys ∧
      (TypeId.norm 1, TypeId.norm 0) ∈ tys.deps ∧
      (∀ n (hn : n < tys.entries.length),
        ∀ c ∈ (tys.entries.get ⟨n, hn⟩).containerChildIds, (TypeId.norm n, c) ∈ tys.deps) := by
  have hrun : vars_to_types listU8Oracle 10 [0]
      = .ok (Types.mk [.U8, .RocList (.norm 0)] [(.norm 1, .norm 0)]) := rfl
  exact ⟨_, hrun, by decide, claim_C3_container_children_in_depends hrun⟩

/-- C7 as stated ("of any variant") is false: on the concrete
`ConsList : [Cons I64 ConsList, Nil]` the emitted `NullableUnwrapped` stores
`null_tag = "Nil"` before `non_null_tag = "Cons"`, an order fixed by the
layout's `nullable_id`, not the alphabet. -/
theorem claim_C7_counterexample :
    add_tag_union consListOracle 20 none [(.Tag "Cons", [1, 2]), (.Tag "Nil", [])] 0 initSt
      = .ok (TypeId.norm 0, St.mk [(TypeId.norm 2, 0)] []
          (Types.mk [.TagUnion (.NullableUnwrapped "ConsList" "Nil" "Cons" (.norm 3) true),
            .I64, .RecursivePointer "ConsList" .PENDING,
            .Struct "ConsList_Cons" [("f0", .norm 1), ("f1", .norm 2)]] [])) ∧
    ¬ tagUnionsOrdered (Types.mk
        [.TagUnion (.NullableUnwrapped "ConsList" "Nil" "Cons" (.norm 3) true),
          .I64, .RecursivePointer "ConsList" .PENDING,
          .Struct "ConsList_Cons" [("f0", .norm 1), ("f1", .norm 2)]] []) := by
  refine ⟨rfl, fun hord => ?_⟩
  have hbad := hord 0 (by decide)
    (.NullableUnwrapped "ConsList" "Nil" "Cons" (.norm 3) true) rfl
  revert hbad
  decide

/-- C7, amended: for the list-shaped variants (`Enumeration`,
`NonRecursive`, `Recursive`) of every emitted `TagUnion`, the tag names are
in strict alphabetical order; the `NullableUnwrapped` pair is ordered by
`nullable_id` instead. -/
theorem claim_C7_list_variants_sorted {o : Oracle} {fuel : Nat} {vars : List Variable}
    {tys : Types} (hwf : WFOracle o) (h : vars_to_types o fuel vars = .ok tys) :
    ∀ n (hn : n < tys.entries.length), ∀ u, tys.entries.get ⟨n, hn⟩ = RocType.TagUnion u →
      u.listTagNames.Pairwise (fun a b => strLt a b = true) := by
  obtain ⟨st1, hlow, hpend, hknown, htys, hInv⟩ := vars_to_types_ok h
  subst htys
  intro n hn u hu
  refine hInv.2.2 hwf n u ?_
  rw [List.get?_eq_get hn, hu]

/-- The result oracle has distinct tag names in its one union. -/
theorem resultOracle_wf : WFOracle resultOracle := by
  intro v
  show contentTagsNodup (resultOracle.content v)
  by_cases h0 : v = 0
  · subst h0
    show contentTagsNodup (.Structure (.TagUnion [(.Tag "Ok", [1]), (.Tag "Err", [2])] 99))
    simp only [contentTagsNodup]
    intro nts hmat
    have h2 : materialize_tags [(TagName.Tag "Ok", [1]), (TagName.Tag "Err", [2])]
        = .ok [("Ok", [1]), ("Err", [2])] := rfl
    rw [h2] at hmat
    cases hmat
    decide
  · by_cases h1 : v = 1
    · subst h1
      exact trivial
    · show contentTagsNodup (resultOracle.content v)
      simp only [resultOracle, h0, h1, if_false]
      exact trivial

/-- Witness for the amended C7: the `MyResult` union lowers with its tags in
strict alphabetical order. -/
theorem claim_C7_witness :
    WFOracle resultOracle ∧
    ∃ tys, vars_to_types resultOracle 20 [0] = .ok tys ∧
      (∀ n (hn : n < tys.entries.length), ∀ u, tys.entries.get ⟨n, hn⟩ = RocType.TagUnion u →
        u.listTagNames.Pairwise (fun a b => strLt a b = true)) := by
  have hrun : vars_to_types resultOracle 20 [0]
      = .ok (Types.mk [.TagUnion (.NonRecursive "MyResult"
          [("Err", some (.norm 1)), ("Ok", some (.norm 2))]), .RocStr, .U32] []) := rfl
  exact ⟨resultOracle_wf, _, hrun, claim_C7_list_variants_sorted resultOracle_wf hrun⟩

/-- C6 as stated is false: a recursive union's one-payload tag also goes
through `add_struct`, which for a single field emits a
`TransparentWrapper "U_Cons"`, not a `Struct "U_Cons"`. -/
theorem claim_C6_counterexample :
    classify_tag recPayloadOracle 20 (.Union .Recursive) "U" "Cons" [1] initSt
      = .ok (("Cons", some (TypeId.norm 1)),
          St.mk [(TypeId.norm 0, 0)] []
            (Types.mk [.RecursivePointer "U" .PENDING,
              .TransparentWrapper "U_Cons" (.norm 0)] [])) ∧
    ∀ fs, (Types.mk [RocType.RecursivePointer "U" .PENDING,
        .TransparentWrapper "U_Cons" (.norm 0)] []).get (.norm 1)
      ≠ some (.Struct "U_Cons" fs) :=
  ⟨rfl, fun fs h => RocType.noConfusion (Option.some.inj h)⟩

/-- C6, amended: a classified tag keeps its name and falls into exactly one
of three cases — no effective fields (no payload, state untouched); exactly
one effective field in a non-recursive union (the payload's own lowered id
is inlined); otherwise the payload goes through `add_struct` under the name
`{union}_{tag}` with fields `f0, f1, …`, which yields a
`Struct "{union}_{tag}"` when there are two or more payload variables but a
`TransparentWrapper "{union}_{tag}"` when there is exactly one. -/
theorem claim_C6_payload_classification {o : Oracle} {fuel : Nat} {lay : Layout}
    {un tn : String} {pv : List Variable} {st : St} {res : (String × Option TypeId) × St}
    (h : classify_tag o (fuel+1) lay un tn pv st = .ok res) :
    res.1.1 = tn ∧
    ((struct_fields_needed o pv = .ok 0 ∧ res = ((tn, none), st)) ∨
     (struct_fields_needed o pv = .ok 1 ∧ is_recursive_tag_union lay = false ∧
       ∃ pid pv0 rest l, pv = pv0 :: rest ∧ o.layoutOf pv0 = some l ∧
         add_type_help o fuel l pv0 none st = .ok (pid, res.2) ∧
         res.1 = (tn, some pid)) ∨
     (∃ k, struct_fields_needed o pv = .ok (k+1) ∧
       (k ≠ 0 ∨ is_recursive_tag_union lay = true) ∧
       ∃ sid, add_struct o fuel (un ++ "_" ++ tn) (payload_fields pv) st = .ok (sid, res.2) ∧
         res.1 = (tn, some sid) ∧
         ∃ t, res.2.types.get sid = some t ∧
           ((2 ≤ pv.length ∧ ∃ fs, t = .Struct (un ++ "_" ++ tn) fs) ∨
            (pv.length = 1 ∧ ∃ c, t = .TransparentWrapper (un ++ "_" ++ tn) c)))) := by
  simp only [classify_tag] at h
  split at h
  · cases h
  next n hn =>
    split at h
    next hz =>
      cases h
      simp at hz
      subst hz
      exact ⟨rfl, Or.inl ⟨hn, rfl⟩⟩
    next hz =>
      have hnz : n ≠ 0 := by simpa using hz
      split at h
      next hb =>
        simp only [Bool.and_eq_true, beq_iff_eq, Bool.not_eq_true'] at hb
        obtain ⟨hn1, hrec⟩ := hb
        subst hn1
        split at h
        · cases h
        next pv0 rest =>
          split at h
          · cases h
          next l hpl =>
            split at h
            · cases h
            next pid st1 hadd =>
              cases h
              exact ⟨rfl, Or.inr (Or.inl ⟨hn, hrec, pid, pv0, rest, l, rfl, hpl, hadd, rfl⟩)⟩
      next hb =>
        split at h
        · cases h
        next sid st1 hstr =>
          cases h
          obtain ⟨k, rfl⟩ : ∃ k, n = k + 1 := by
            cases n with
            | zero => exact absurd rfl hnz
            | succ k => exact ⟨k, rfl⟩
          refine ⟨rfl, Or.inr (Or.inr ⟨k, hn, ?_, sid, hstr, rfl, ?_⟩)⟩
          · by_cases hk : k = 0
            · subst hk
              right
              cases hrt : is_recursive_tag_union lay with
              | true => rfl
              | false => exact absurd (by simp [hrt]) hb
            · exact Or.inl hk
          · cases fuel with
            | zero => simp [add_struct] at hstr
            | succ fuel2 =>
              have hsh := add_struct_shape hstr
              have hlen := payload_fields_length pv
              rcases hsh with ⟨hemp, _⟩ | ⟨h1, c, hget⟩ | ⟨h2, fs, hget, _⟩
              · exfalso
                have : pv = [] := by
                  have := congrArg List.length hemp
                  rw [hlen] at this
                  exact List.length_eq_zero.mp this
                exact struct_fields_needed_pos hn this
              · rw [hlen] at h1
                exact ⟨_, hget, Or.inr ⟨h1, c, rfl⟩⟩
              · rw [hlen] at h2
                exact ⟨_, hget, Or.inl ⟨h2, fs, rfl⟩⟩

/-- Witness for the amended C6 at the `Ok U32` tag of `MyResult`: one
effective field in a non-recursive union, so the payload id is inlined. -/
theorem claim_C6_witness :
    ∃ res, classify_tag resultOracle 20 (.Union .NonRecursive) "MyResult" "Ok" [1] initSt
        = .ok res ∧
      res.1.1 = "Ok" ∧
      ((struct_fields_needed resultOracle [1] = .ok 0 ∧ res = (("Ok", none), initSt)) ∨
       (struct_fields_needed resultOracle [1] = .ok 1 ∧
         is_recursive_tag_union (.Union .NonRecursive) = false ∧
         ∃ pid pv0 rest l, [1] = pv0 :: rest ∧ resultOracle.layoutOf pv0 = some l ∧
           add_type_help resultOracle 19 l pv0 none initSt = .ok (pid, res.2) ∧
           res.1 = ("Ok", some pid)) ∨
       (∃ k, struct_fields_needed resultOracle [1] = .ok (k+1) ∧
         (k ≠ 0 ∨ is_recursive_tag_union (.Union .NonRecursive) = true) ∧
         ∃ sid, add_struct resultOracle 19 ("MyResult" ++ "_" ++ "Ok")
             (payload_fields [1]) initSt = .ok (sid, res.2) ∧
           res.1 = ("Ok", some sid) ∧
           ∃ t, res.2.types.get sid = some t ∧
             ((2 ≤ ([1] : List Variable).length ∧
                ∃ fs, t = .Struct ("MyResult" ++ "_" ++ "Ok") fs) ∨
              (([1] : List Variable).length = 1 ∧
                ∃ c, t = .TransparentWrapper ("MyResult" ++ "_" ++ "Ok") c)))) := by
  have hrun : classify_tag resultOracle 20 (.Union .NonRecursive) "MyResult" "Ok" [1] initSt
      = .ok (("Ok", some (TypeId.norm 0)),
          St.mk [] [] (Types.mk [.U32] [])) := rfl
  exact ⟨_, hrun, claim_C6_payload_classification hrun⟩

/-- C4: a two-tag union with `NullableUnwrapped` layout, one of whose tags
has an empty payload, lowers to a `NullableUnwrapped` value whose `null_tag`
is the name of the empty-payload tag, whose `non_null_payload` is the
`TypeId` the classification produced for the other (non-empty) tag, and
whose `null_represents_first_tag` is the layout's `nullable_id`. -/
theorem claim_C4_nullable_unwrapped {o : Oracle} {fuel : Nat} {nm : Option Symbol}
    {tagsIn : List (TagName × List Variable)} {v : Variable} {st : St} {r : TypeId × St}
    {nts : List (String × List Variable)} {b : Bool}
    (hmat : materialize_tags tagsIn = .ok nts)
    (hlay : o.layoutOf v = some (.Union (.NullableUnwrapped b)))
    (hlen : nts.length = 2)
    (hempty : ∃ p ∈ nts, struct_fields_needed o p.2 = .ok 0)
    (h : add_tag_union o (fuel+1) nm tagsIn v st = .ok r) :
    ∃ nt nnt pid,
      r.2.types.get r.1 = some (.TagUnion (.NullableUnwrapped (union_name o nm v)
        nt.1 nnt.1 pid b)) ∧
      nt ∈ nts ∧ struct_fields_needed o nt.2 = .ok 0 ∧
      nnt ∈ nts ∧ ¬ struct_fields_needed o nnt.2 = .ok 0 ∧
      ∃ f1 stA stB, classify_tag o f1 (.Union (.NullableUnwrapped b)) (union_name o nm v)
        nnt.1 nnt.2 stA = .ok ((nnt.1, some pid), stB) := by
  simp only [add_tag_union, hmat] at h
  split at h
  · rename_i tagName payloadVars
    simp at hlen
  · split at h
    · cases h
    next layout hlay2 =>
      rw [hlay] at hlay2
      obtain rfl : Layout.Union (.NullableUnwrapped b) = layout := Option.some.inj hlay2
      split at h
      · cases h
      next classified st2 hcls =>
        split at h
        · cases h
        next typ htu =>
          cases h
          have hperm := List.perm_insertionSort
            (fun a b : String × List Variable => strLe a.1 b.1 = true) nts
          have hslen : (List.insertionSort
              (fun a b : String × List Variable => strLe a.1 b.1 = true) nts).length = 2 := by
            rw [hperm.length_eq, hlen]
          obtain ⟨a0, a1, hs2⟩ : ∃ a0 a1, List.insertionSort
              (fun a b : String × List Variable => strLe a.1 b.1 = true) nts = [a0, a1] := by
            cases hs : List.insertionSort
                (fun a b : String × List Variable => strLe a.1 b.1 = true) nts with
            | nil => rw [hs] at hslen; simp at hslen
            | cons x xs =>
              cases xs with
              | nil => rw [hs] at hslen; simp at hslen
              | cons y ys =>
                cases ys with
                | nil => exact ⟨x, y, rfl⟩
                | cons z zs => rw [hs] at hslen; simp at hslen
          have hmem0 : a0 ∈ nts := hperm.subset (by rw [hs2]; simp)
          have hmem1 : a1 ∈ nts := hperm.subset (by rw [hs2]; simp)
          rw [hs2] at hcls
          obtain ⟨f1, f2, ra, stm, rb, hc0, hc1, hout⟩ := classify_tags_pair hcls
          have hout2 : classified = [ra, rb] := hout
          subst hout2
          have hname0 : ra.1 = a0.1 :=
            ((step_master o f1).2.2.2.2.2.2.1 _ _ _ _ _ _ hc0).2.1
          have hname1 : rb.1 = a1.1 :=
            ((step_master o f2).2.2.2.2.2.2.1 _ _ _ _ _ _ hc1).2.1
          have hiff0 := classify_tag_none_iff hc0
          have hiff1 := classify_tag_none_iff hc1
          have scl := ((step_master o fuel).2.2.2.2.2.2.2 _ _ _ _ _ hcls).1
          have hlen1 : st.types.entries.length + 1 ≤ st2.types.entries.length := by
            have := scl.len
            simpa [Types.add_entries] using this
          have hNlt : st.types.entries.length < st2.types.entries.length :=
            Nat.lt_of_lt_of_le (Nat.lt_succ_self _) hlen1
          have hget : ∀ t, typ = t →
              ((⟨st2.pending, st2.known,
                st2.types.replace (st.types.add placeholderType).2 typ⟩ : St)).types.get
                (st.types.add placeholderType).2 = some t := by
            intro t ht
            subst ht
            show (st2.types.entries.set st.types.entries.length typ).get?
              st.types.entries.length = some typ
            rw [List.get?_eq_getElem?, List.getElem?_set_self',
              List.getElem?_eq_getElem hNlt]
            rfl
          simp only [tag_union_type] at htu
          cases b with
          | true =>
            simp only [if_true] at htu
            split at htu
            · cases htu
            next pid hpid =>
              cases htu
              refine ⟨a1, a0, pid, ?_, hmem1, ?_, hmem0, ?_, ?_⟩
              · rw [← hname0, ← hname1]
                exact hget _ rfl
              · rcases hempty with ⟨p, hpmem, hp0⟩
                have hpcases : p = a0 ∨ p = a1 := by
                  have := hperm.symm.subset hpmem
                  rw [hs2] at this
                  simpa using this
                cases hpcases with
                | inl hpa =>
                  exfalso
                  rw [hpa] at hp0
                  have := hiff0.2 hp0
                  rw [hpid] at this
                  cases this
                | inr hpa => rw [← hpa]; exact hp0
              · intro h0
                have := hiff0.2 h0
                rw [hpid] at this
                cases this
              · obtain ⟨ra1, ra2⟩ := ra
                have hra1 : ra1 = a0.1 := hname0
                have hra2 : ra2 = some pid := hpid
                subst hra1
                subst hra2
                exact ⟨f1, _, stm, hc0⟩
          | false =>
            simp only [Bool.false_eq_true, if_false] at htu
            split at htu
            · cases htu
            next pid hpid =>
              cases htu
              refine ⟨a0, a1, pid, ?_, hmem0, ?_, hmem1, ?_, ?_⟩
              · rw [← hname0, ← hname1]
                exact hget _ rfl
              · rcases hempty with ⟨p, hpmem, hp0⟩
                have hpcases : p = a0 ∨ p = a1 := by
                  have := hperm.symm.subset hpmem
                  rw [hs2] at this
                  simpa using this
                cases hpcases with
                | inr hpa =>
                  exfalso
                  rw [hpa] at hp0
                  have := hiff1.2 hp0
                  rw [hpid] at this
                  cases this
                | inl hpa => rw [← hpa]; exact hp0
              · intro h0
                have := hiff1.2 h0
                rw [hpid] at this
                cases this
              · obtain ⟨rb1, rb2⟩ := rb
                have hrb1 : rb1 = a1.1 := hname1
                have hrb2 : rb2 = some pid := hpid
                subst hrb1
                subst hrb2
                exact ⟨f2, _, (st2 : St), hc1⟩

/-- Witness for C1's universal part: on a concrete successful run the
`known_recursive_types` map ends exactly as it began. -/
theorem claim_C1_witness :
    lower_all oneFieldRecordOracle 10 [0] initSt
        = .ok (St.mk [] [] (Types.mk [.U8, .TransparentWrapper "R" (.norm 0)] [])) ∧
    (St.mk [] [] (Types.mk [RocType.U8, .TransparentWrapper "R" (.norm 0)] [])).known
      = initSt.known :=
  ⟨rfl, claim_C1_known_recursive_never_registered.2 oneFieldRecordOracle 10 [0] initSt _ rfl⟩

/-- Witness for C4 on the concrete cons-list: the empty `Nil` tag lands in
the null slot and `Cons`'s payload id in the non-null slot. -/
theorem claim_C4_witness :
    ∃ r, add_tag_union consListOracle 20 none
        [(.Tag "Cons", [1, 2]), (.Tag "Nil", [])] 0 initSt = .ok r ∧
      ∃ nt nnt pid,
        r.2.types.get r.1 = some (.TagUnion (.NullableUnwrapped
          (union_name consListOracle none 0) nt.1 nnt.1 pid true)) ∧
        nt ∈ [("Cons", [1, 2]), ("Nil", ([] : List Variable))] ∧
        struct_fields_needed consListOracle nt.2 = .ok 0 ∧
        nnt ∈ [("Cons", [1, 2]), ("Nil", ([] : List Variable))] ∧
        ¬ struct_fields_needed consListOracle nnt.2 = .ok 0 ∧
        ∃ f1 stA stB, classify_tag consListOracle f1 (.Union (.NullableUnwrapped true))
          (union_name consListOracle none 0) nnt.1 nnt.2 stA
            = .ok ((nnt.1, some pid), stB) := by
  have hmat : materialize_tags [(TagName.Tag "Cons", [1, 2]), (TagName.Tag "Nil", [])]
      = .ok [("Cons", [1, 2]), ("Nil", [])] := rfl
  have hrun : add_tag_union consListOracle 20 none
      [(.Tag "Cons", [1, 2]), (.Tag "Nil", [])] 0 initSt
      = .ok (TypeId.norm 0, St.mk [(TypeId.norm 2, 0)] []
          (Types.mk [.TagUnion (.NullableUnwrapped "ConsList" "Nil" "Cons" (.norm 3) true),
            .I64, .RecursivePointer "ConsList" .PENDING,
            .Struct "ConsList_Cons" [("f0", .norm 1), ("f1", .norm 2)]] [])) := rfl
  exact ⟨_, hrun,
    claim_C4_nullable_unwrapped hmat rfl rfl ⟨("Nil", []), by simp, rfl⟩ hrun⟩

/-- Witness for C5 on a concrete single-tag union with one payload: a
`TransparentWrapper` comes out, never a `TagUnion`, and its content is the
id `add_type` returned for the payload variable. -/
theorem claim_C5_witness :
    ∃ r, add_tag_union resultOracle 10 none [(.Tag "Only", [1])] 0 initSt = .ok r ∧
      (∀ u, r.2.types.get r.1 ≠ some (RocType.TagUnion u)) ∧
      ∃ c st1, add_type resultOracle 9 1 initSt = .ok (c, st1) ∧
        r.2.types.get r.1 = some (.TransparentWrapper (single_tag_name none "Only") c) := by
  have hmat : materialize_tags [(TagName.Tag "Only", [1])] = .ok [("Only", [1])] := rfl
  have hrun : add_tag_union resultOracle 10 none [(.Tag "Only", [1])] 0 initSt
      = .ok (TypeId.norm 1, St.mk [] []
          (Types.mk [.U32, .TransparentWrapper "Only" (.norm 0)] [])) := rfl
  have hc := claim_C5_single_tag_collapse hmat hrun
  exact ⟨_, hrun, hc.1, hc.2.2.1 1 rfl⟩

/-- Witness for C8 on the concrete record: the `Optional` field `b` is
absent from the emitted type's labels. -/
theorem claim_C8_witness :
    ∃ r, add_type_help optFieldOracle 10 .Struct 0 none initSt = .ok r ∧
      ∀ t, r.2.types.get r.1 = some t → "b" ∉ labelsOf t := by
  have hrun : add_type_help optFieldOracle 10 .Struct 0 none initSt
      = .ok (TypeId.norm 1, St.mk [] []
          (Types.mk [.U8, .TransparentWrapper "R" (.norm 0)] [])) := rfl
  have hopt : ∀ rf, ("b", rf) ∈ [("a", RecordField.Required 1), ("b", RecordField.Optional 1)] →
      ∃ w, rf = RecordField.Optional w := by
    intro rf hrf
    simp at hrf
    exact ⟨1, hrf⟩
  exact ⟨_, hrun, claim_C8_optional_fields_dropped rfl hopt hrun⟩

/-- Witness for C10 on the concrete `MyResult` union: the returned slot
holds the final `TagUnion`, not the placeholder. -/
theorem claim_C10_witness :
    ∃ r, add_tag_union resultOracle 20 none [(.Tag "Ok", [1]), (.Tag "Err", [2])] 0 initSt
        = .ok r ∧
      ∃ typ, r.2.types.get r.1 = some typ ∧ typ ≠ placeholderType ∧
        (typ = RocType.Bool ∨ ∃ u, typ = RocType.TagUnion u) := by
  have hmat : materialize_tags [(TagName.Tag "Ok", [1]), (TagName.Tag "Err", [2])]
      = .ok [("Ok", [1]), ("Err", [2])] := rfl
  have hrun : add_tag_union resultOracle 20 none [(.Tag "Ok", [1]), (.Tag "Err", [2])] 0 initSt
      = .ok (TypeId.norm 0, St.mk [] []
          (Types.mk [.TagUnion (.NonRecursive "MyResult"
              [("Err", some (.norm 1)), ("Ok", some (.norm 2))]),
            .RocStr, .U32] [])) := rfl
  exact ⟨_, hrun, (claim_C10_placeholder_replaced hmat (by decide) hrun).1⟩

end Bindgen
